import Mathlib

/-! Verification of the segment-scheduling engine of `src/generator.py`
(scramble-clip-2) against its specification.  Python floats are modelled as
exact rational arithmetic; external effects (video decoding, frame access,
rendering, the random source and the progress sink) are explicit parameters. -/

set_option linter.unusedVariables false

namespace Scramble

/-- Time intervals are `(start, end)` pairs of rationals. -/
abbrev Interval := ℚ × ℚ

/-- Two intervals overlap when their intersection has positive length. -/
def overlapI (p q : Interval) : Prop := max p.1 q.1 < min p.2 q.2

instance (p q : Interval) : Decidable (overlapI p q) :=
  inferInstanceAs (Decidable (_ < _))

/-- Lines 894-897 of `generator.py`: expand a used interval by `buffer`,
clamping to `[0, clip_duration]`. -/
def bufferInterval (clip_duration buffer : ℚ) (p : Interval) : Interval :=
  (max 0 (p.1 - buffer), min clip_duration (p.2 + buffer))

/-- Python's stable `sorted(all_used, key=lambda x: x[0])` (line 890),
modelled as insertion sort.  (The relative order of intervals with equal
starts does not influence the merge that consumes this list.) -/
def sortedByStart (l : List Interval) : List Interval :=
  List.insertionSort (fun a b => a.1 ≤ b.1) l

/-- One iteration of the merge loop, lines 900-905 of `generator.py`.  The
accumulator holds the merged list reversed, so its head is Python's
`merged[-1]`. -/
def mergeStep (acc : List Interval) (seg : Interval) : List Interval :=
  match acc with
  | [] => [seg]
  | last :: rest =>
      if seg.1 > last.2 then seg :: last :: rest
      else (last.1, max last.2 seg.2) :: rest

/-- The merged, buffered usage intervals computed in lines 889-905. -/
def mergedIntervals (clip_duration buffer : ℚ) (used : List Interval) : List Interval :=
  (((sortedByStart used).map (bufferInterval clip_duration buffer)).foldl mergeStep []).reverse

/-- `find_available_segments` (lines 859-926 of `generator.py`).
`clip_index` is a parameter of the Python function that its body never
reads; it is kept for signature fidelity. -/
def find_available_segments (clip_index : ℕ) (desired_duration clip_duration : ℚ)
    (global_history local_history : List Interval)
    (min_segment_size buffer : ℚ) : List Interval :=
  let all_used := global_history ++ local_history
  if all_used.isEmpty then [(0, clip_duration - desired_duration)]
  else
    let merged := mergedIntervals clip_duration buffer all_used
    let lead :=
      if merged.headI.1 > desired_duration then [((0 : ℚ), merged.headI.1)] else []
    let mids := (merged.zip merged.tail).filterMap fun ab =>
      if ab.2.1 - ab.1.2 ≥ desired_duration + min_segment_size then
        some (ab.1.2, ab.2.1 - desired_duration)
      else none
    let trail :=
      if clip_duration - merged.getLastI.2 ≥ desired_duration + min_segment_size then
        [(merged.getLastI.2, clip_duration - desired_duration)]
      else []
    lead ++ mids ++ trail

/-! ### Visual similarity and clip selection (lines 724-856) -/

/-- `np.dot` on equal-length vectors. -/
def dotProduct (xs ys : List ℚ) : ℚ := ((xs.zip ys).map fun p => p.1 * p.2).sum

/-- `calculate_similarity` (lines 780-799).  NumPy's Euclidean norm needs a
square root, which is not rational; the embedding abstracts the square-root
routine as a parameter `sqrtFn` and theorems state the properties of
`sqrtFn` they rely on. -/
def calculate_similarity (sqrtFn : ℚ → ℚ) (sig1 sig2 : List ℚ) : ℚ :=
  let dot_product := dotProduct sig1 sig2
  let norm1 := sqrtFn (dotProduct sig1 sig1)
  let norm2 := sqrtFn (dotProduct sig2 sig2)
  if norm1 = 0 ∨ norm2 = 0 then 0 else dot_product / (norm1 * norm2)

/-- Python's `max` on a non-empty list (0 on the empty list, which the code
never reaches). -/
def pyMax : List ℚ → ℚ
  | [] => 0
  | x :: xs => xs.foldl max x

/-- Dictionary lookup in the signature table (`candidate in visual_signatures`
plus `visual_signatures[candidate]`). -/
def sigLookup : List (ℕ × List ℚ) → ℕ → Option (List ℚ)
  | [], _ => none
  | (k, v) :: t, c => if k = c then some v else sigLookup t c

/-- The per-candidate score of the loop at lines 748-769: mean dissimilarity
`1 - similarity` against the recently-used clips that have a signature, `0`
when the candidate has no signature or no recently-used clip has one. -/
def scoreOf (sqrtFn : ℚ → ℚ) (recently_used : List ℕ)
    (visual_signatures : List (ℕ × List ℚ)) (candidate : ℕ) : ℚ :=
  match sigLookup visual_signatures candidate with
  | none => 0
  | some csig =>
      let diss := recently_used.filterMap fun used =>
        (sigLookup visual_signatures used).map fun usig =>
          1 - calculate_similarity sqrtFn csig usig
      if 0 < diss.length then diss.sum / (diss.length : ℚ) else 0

/-- The candidate sample of lines 742-745:
`random.sample(available_indices, min(top_n, len(available_indices)))`. -/
def sampledCandidates (randSample : List ℕ → ℕ → List ℕ) (avail : List ℕ)
    (top_n : ℕ) : List ℕ :=
  randSample avail (min top_n avail.length)

/-- The score list built by the loop at lines 748-769. -/
def candScores (sqrtFn : ℚ → ℚ) (randSample : List ℕ → ℕ → List ℕ)
    (avail recents : List ℕ) (vs : List (ℕ × List ℚ)) (top_n : ℕ) : List ℚ :=
  (sampledCandidates randSample avail top_n).map (scoreOf sqrtFn recents vs)

/-- `select_dissimilar_clip` (lines 724-777).  The two uses of the global
random source — `random.choice` and `random.sample` — are passed in as
`randChoice` and `randSample`. -/
def select_dissimilar_clip (sqrtFn : ℚ → ℚ) (randChoice : List ℕ → ℕ)
    (randSample : List ℕ → ℕ → List ℕ)
    (available_indices recently_used : List ℕ)
    (visual_signatures : List (ℕ × List ℚ)) (top_n : ℕ) : ℕ :=
  if recently_used.isEmpty ∨ visual_signatures.isEmpty then randChoice available_indices
  else
    let candidates := sampledCandidates randSample available_indices top_n
    let scores := candidates.map (scoreOf sqrtFn recently_used visual_signatures)
    if ¬ scores.isEmpty then candidates.getD (scores.indexOf (pyMax scores)) 0
    else randChoice available_indices

/-! ### The per-output planning loop (lines 114-310)

Randomness is modelled by an oracle record `Draws`: each call of
`random.uniform(a, b)` becomes `a + (b - a) * t` for an oracle value `t`
(which is in `[0, 1]` for genuine draws), each `random.choice(l)` becomes
indexing `l` by an oracle value modulo `l.length`, and `random.randint(8, 12)`
becomes `8 + r % 5`.  Subclip extraction (a call into the codec library that
the code wraps in `try`) is an oracle `Bool` per round. -/

/-- `random.uniform(a, b) = a + (b - a) * random()`. -/
def uniformDraw (t a b : ℚ) : ℚ := a + (b - a) * t

/-- `random.choice` on a list of clip indices. -/
def choiceList (r : ℕ) (l : List ℕ) : ℕ := l.getD (r % l.length) 0

/-- `random.choice` on a list of segments. -/
def choiceSeg (r : ℕ) (l : List Interval) : Interval := l.getD (r % l.length) (0, 0)

/-- Oracles for every random draw and every fallible codec call made by the
planning part of `generate_batch`; main-loop oracles are indexed by the
round index `j`, shortfall-loop oracles by the iteration counter `k`. -/
structure Draws where
  numClipsR : ℕ
  clipChoiceR : ℕ → ℕ
  sampleR : ℕ → List ℕ → ℕ → List ℕ
  sdChoiceR : ℕ → ℕ
  durT : ℕ → ℚ
  segChoiceR : ℕ → ℕ
  startT : ℕ → ℚ
  extractOk : ℕ → Bool
  sClipChoiceR : ℕ → ℕ
  sSegChoiceR : ℕ → ℕ
  sStartT : ℕ → ℚ
  sExtractOk : ℕ → Bool

/-- Python dict usage histories: association lists from clip index to the
list of used `(start, end)` intervals, in insertion order. -/
abbrev Hist := List (ℕ × List Interval)

/-- `history.get(clip_index, [])`. -/
def histGet : Hist → ℕ → List Interval
  | [], _ => []
  | (k, v) :: t, c => if k = c then v else histGet t c

/-- `history.setdefault(clip_index, []).append(seg)` — the two-line append
idiom at lines 218-224 and 291-293: appending to the entry of `clip_index`
if present (keys are unique), else adding a new entry at the end. -/
def histAppend : Hist → ℕ → Interval → Hist
  | [], c, seg => [(c, [seg])]
  | (k, v) :: t, c, seg =>
      if k = c then (k, v ++ [seg]) :: t else (k, v) :: histAppend t c seg

/-- The mutable state of one output's planning: the global history
`clip_history`, the per-output `local_clip_history`, `selected_clips`
(recorded as `(clip index, start, duration)` triples), `total_duration`,
`used_clips_memory`, and whether the `for` loop has executed `break`. -/
structure PlanState where
  gHist : Hist
  lHist : Hist
  plan : List (ℕ × ℚ × ℚ)
  total : ℚ
  memory : List ℕ
  broke : Bool

/-- Static data of one output's planning: the loaded clip durations, the
visual signatures, the abstract square root and the random oracles. -/
structure PlanCtx where
  clips : List ℚ
  sigs : List (ℕ × List ℚ)
  sqrtFn : ℚ → ℚ
  draws : Draws

/-- `num_clips = random.randint(8, 12)` (line 129). -/
def numClipsOf (ctx : PlanCtx) : ℕ := 8 + ctx.draws.numClipsR % 5

/-- `avg_clip_duration = TARGET_DURATION / num_clips` (line 132). -/
def avgOf (ctx : PlanCtx) : ℚ := 16 / (numClipsOf ctx : ℚ)

/-- `min_clip_dur = max(1.5, avg_clip_duration * 0.8)` (line 134). -/
def minDurOf (ctx : PlanCtx) : ℚ := max (3 / 2) (avgOf ctx * (4 / 5))

/-- `max_clip_dur = min(3.0, avg_clip_duration * 1.2)` (line 135). -/
def maxDurOf (ctx : PlanCtx) : ℚ := min 3 (avgOf ctx * (6 / 5))

/-- `memory_size = min(5, len(input_clips) // 2)` (line 143). -/
def memSizeOf (ctx : PlanCtx) : ℕ := min 5 (ctx.clips.length / 2)

/-- Lines 155-160: the available clip indices after removing recently used
ones (each removal guarded by `len(available) > 1`). -/
def roundAvailable (ctx : PlanCtx) (st : PlanState) : List ℕ :=
  st.memory.foldl
    (fun acc u => if u ∈ acc ∧ 1 < acc.length then acc.erase u else acc)
    (List.range ctx.clips.length)

/-- Lines 162-176: clip selection for round `j` — dissimilarity-based when
signatures exist, more than one index is available and a clip has already
been selected; `random.choice` otherwise. -/
def roundClipIndex (ctx : PlanCtx) (j : ℕ) (st : PlanState) : ℕ :=
  if ¬ ctx.sigs.isEmpty ∧ 1 < (roundAvailable ctx st).length then
    if ¬ st.plan.isEmpty then
      select_dissimilar_clip ctx.sqrtFn (choiceList (ctx.draws.sdChoiceR j))
        (ctx.draws.sampleR j) (roundAvailable ctx st) st.memory ctx.sigs 3
    else choiceList (ctx.draws.clipChoiceR j) (roundAvailable ctx st)
  else choiceList (ctx.draws.clipChoiceR j) (roundAvailable ctx st)

/-- Lines 180-183: append the chosen clip to `used_clips_memory` and pop
the oldest entry beyond `memory_size`. -/
def roundMemory (ctx : PlanCtx) (j : ℕ) (st : PlanState) : List ℕ :=
  let memory1 := st.memory ++ [roundClipIndex ctx j st]
  if memSizeOf ctx < memory1.length then memory1.tail else memory1

/-- Lines 185-197: this round's clip duration — a uniform draw when more
rounds remain, the clamped remaining duration on the final round. -/
def roundDuration (ctx : PlanCtx) (j : ℕ) (st : PlanState) : ℚ :=
  if 1 < numClipsOf ctx - j then
    uniformDraw (ctx.draws.durT j) (minDurOf ctx)
      (min (maxDurOf ctx)
        (max 0 (16 - st.total) / ((numClipsOf ctx - j : ℕ) : ℚ) * (3 / 2)))
  else max (minDurOf ctx) (min (maxDurOf ctx) (max 0 (16 - st.total)))

/-- Lines 199-204: the round's `find_available_segments` query. -/
def roundSegs (ctx : PlanCtx) (j : ℕ) (st : PlanState) : List Interval :=
  find_available_segments (roundClipIndex ctx j st) (roundDuration ctx j st)
    (ctx.clips.getD (roundClipIndex ctx j st) 0)
    (histGet st.gHist (roundClipIndex ctx j st))
    (histGet st.lHist (roundClipIndex ctx j st)) (1 / 2) (1 / 10)

/-- Lines 213-214: segment choice and uniform start draw. -/
def roundStart (ctx : PlanCtx) (j : ℕ) (st : PlanState) : ℚ :=
  uniformDraw (ctx.draws.startT j)
    (choiceSeg (ctx.draws.segChoiceR j) (roundSegs ctx j st)).1
    ((choiceSeg (ctx.draws.segChoiceR j) (roundSegs ctx j st)).2 - roundDuration ctx j st)

/-- One iteration `j` of the main segment-acquisition loop (lines 148-249).
When the round's `find_available_segments` query is empty the code runs
`j -= 1; continue` (lines 207-210): reassigning the loop variable of a
Python `for` loop has no effect on the iteration, so the round is simply
skipped with only `used_clips_memory` changed.  After a Python `break`
(line 249) the remaining iterations do nothing, modelled by the `broke`
flag. -/
def mainRound (ctx : PlanCtx) (j : ℕ) (st : PlanState) : PlanState :=
  if st.broke then st
  else
    let clip_index := roundClipIndex ctx j st
    let memory2 := roundMemory ctx j st
    let clip_duration := roundDuration ctx j st
    if (roundSegs ctx j st).isEmpty then { st with memory := memory2 }
    else
      let start_time := roundStart ctx j st
      let used : Interval := (start_time, start_time + clip_duration)
      let g2 := histAppend st.gHist clip_index used
      let l2 := histAppend st.lHist clip_index used
      if ctx.draws.extractOk j then
        let total2 := st.total + clip_duration
        { gHist := g2, lHist := l2,
          plan := st.plan ++ [(clip_index, start_time, clip_duration)],
          total := total2, memory := memory2, broke := decide (16 ≤ total2) }
      else { st with gHist := g2, lHist := l2, memory := memory2 }

/-- The whole main loop `for j in range(num_clips)` for one output, started
from the batch-global history and fresh per-output state (lines 138-249). -/
def mainPhase (ctx : PlanCtx) (gHist0 : Hist) : PlanState :=
  (List.range (numClipsOf ctx)).foldl (fun st j => mainRound ctx j st)
    { gHist := gHist0, lHist := [], plan := [], total := 0, memory := [], broke := false }

/-- The shortfall-filling `while` loop (lines 252-297), fuelled because the
source loop has no progress guarantee: `none` means the loop is still
running after `fuel` iterations.  Note that the loop records the acquired
segment in the global `clip_history` only — unlike the main loop it never
touches `local_clip_history` — and that a failed extraction `break`s. -/
def shortfallLoop (ctx : PlanCtx) : ℕ → ℕ → PlanState → Option PlanState
  | 0, _, st => if st.total < 16 ∧ st.plan.length < 24 then none else some st
  | fuel + 1, k, st =>
    if st.total < 16 ∧ st.plan.length < 24 then
      let clip_index := choiceList (ctx.draws.sClipChoiceR k) (List.range ctx.clips.length)
      let remaining_duration := 16 - st.total
      let clip_duration := max (minDurOf ctx) (min (maxDurOf ctx) remaining_duration)
      let segs := find_available_segments clip_index clip_duration
          (ctx.clips.getD clip_index 0) (histGet st.gHist clip_index)
          (histGet st.lHist clip_index) (1 / 2) (1 / 10)
      if segs.isEmpty then shortfallLoop ctx fuel (k + 1) st
      else if ¬ ctx.draws.sExtractOk k then some st
      else
        let seg := choiceSeg (ctx.draws.sSegChoiceR k) segs
        let start_time := uniformDraw (ctx.draws.sStartT k) seg.1 (seg.2 - clip_duration)
        let used : Interval := (start_time, start_time + clip_duration)
        shortfallLoop ctx fuel (k + 1)
          { st with gHist := histAppend st.gHist clip_index used,
                    plan := st.plan ++ [(clip_index, start_time, clip_duration)],
                    total := st.total + clip_duration }
    else some st

/-- The loop-extension reconciliation (lines 300-310): when the plan is
non-empty but short of the target, the rendered duration of the last clip
is extended to make the output exactly 16 s; the Boolean records whether
this happened. -/
def loopExtend (st : PlanState) : PlanState × Bool :=
  if st.total < 16 ∧ ¬ st.plan.isEmpty then ({ st with total := 16 }, true) else (st, false)

/-- Planning of one complete output: main loop, shortfall loop, extension. -/
def planOutput (ctx : PlanCtx) (gHist0 : Hist) (fuel : ℕ) : Option (PlanState × Bool) :=
  (shortfallLoop ctx fuel 0 (mainPhase ctx gHist0)).map loopExtend

/-- Sum of the durations of the planned segments. -/
def planSum (plan : List (ℕ × ℚ × ℚ)) : ℚ := (plan.map fun s => s.2.2).sum

/-- The final-trim stage (lines 352-355): a composed output longer than
`TARGET_DURATION + 1` is cut back to exactly the target. -/
def composedDuration (total : ℚ) : ℚ := if 16 + 1 < total then 16 else total

/-! ### The batch driver `generate_batch` (lines 33-537) and the worker -/

/-- Errors that can escape `generate_batch`: the two `ValueError`s of the
input phase, an exception raised by the progress sink (which the code does
not catch), and the specification's `FatalBatchError` (which the code
never raises — see the theorems below). -/
inductive BatchErr
  | input (msg : String)
  | sink
  | fatal

/-- Loading of the input clips to their durations (lines 69-86): one
all-or-nothing attempt, then on failure a one-by-one retry keeping the
clips that load. -/
def loadClips (load : String → Option ℚ) (paths : List String) : List ℚ :=
  match paths.mapM load with
  | some clips => clips
  | none => paths.filterMap load

/-- `f"output_{i+1:02d}.mp4"`. -/
def outName (i : ℕ) : String :=
  "output_" ++ (if i + 1 < 10 then "0" else "") ++ toString (i + 1) ++ ".mp4"

/-- The per-output loop of `generate_batch` (lines 114-527).  `renderOk i`
abstracts whether composing and writing output `i` succeeded on either the
primary or the fallback encode attempt; `progressGiven` is whether a
progress callback was supplied and `sinkRaises` whether calling it raises.
An abandoned output (empty plan, line 312) is skipped; an output whose
planning never leaves the shortfall loop makes the whole call diverge
(`none`). -/
def runOutputs (clips : List ℚ) (sigs : List (ℕ × List ℚ)) (sqrtFn : ℚ → ℚ)
    (drawsFor : ℕ → Draws) (renderOk : ℕ → Bool) (fuel : ℕ)
    (progressGiven sinkRaises : Bool) :
    List ℕ → Hist → List String → Option (Except BatchErr (List String))
  | [], _, paths =>
      if progressGiven ∧ sinkRaises then some (Except.error BatchErr.sink)
      else some (Except.ok paths)
  | i :: rest, gh, paths =>
      if progressGiven ∧ sinkRaises then some (Except.error BatchErr.sink)
      else
        match planOutput ⟨clips, sigs, sqrtFn, drawsFor i⟩ gh fuel with
        | none => none
        | some (st, _) =>
            if st.plan.isEmpty then
              runOutputs clips sigs sqrtFn drawsFor renderOk fuel progressGiven sinkRaises
                rest st.gHist paths
            else if renderOk i then
              runOutputs clips sigs sqrtFn drawsFor renderOk fuel progressGiven sinkRaises
                rest st.gHist (paths ++ [outName i])
            else
              runOutputs clips sigs sqrtFn drawsFor renderOk fuel progressGiven sinkRaises
                rest st.gHist paths

/-- `generate_batch`.  The signature parameters that are pure configuration
for the rendering stages (`use_effects`, `use_text`, …) do not influence
the properties below and are absorbed into `renderOk`.  `load` models
`VideoFileClip` (duration on success, `none` for an unopenable file);
`sigs` models the result of `create_video_signatures`, consulted only when
more than one clip loaded (lines 101-106). -/
def generate_batch (load : String → Option ℚ) (input_videos : List String)
    (num_videos : ℕ) (sigs : List (ℕ × List ℚ)) (sqrtFn : ℚ → ℚ)
    (drawsFor : ℕ → Draws) (renderOk : ℕ → Bool) (fuel : ℕ)
    (progressGiven sinkRaises : Bool) : Option (Except BatchErr (List String)) :=
  if input_videos.isEmpty then
    some (Except.error (BatchErr.input "No input videos provided"))
  else if progressGiven ∧ sinkRaises then some (Except.error BatchErr.sink)
  else
    let input_clips := loadClips load input_videos
    if input_clips.isEmpty then
      some (Except.error (BatchErr.input "No valid input videos could be loaded"))
    else
      let visual_signatures := if 1 < input_clips.length then sigs else []
      runOutputs input_clips visual_signatures sqrtFn drawsFor renderOk fuel
        progressGiven sinkRaises (List.range num_videos) [] []

/-- Job states of the worker's `job_queue` row. -/
inductive JobStatus
  | processing
  | finished
  | jobError

/-- `process_job` (lines 31-87 of `backend/worker/main.py`), viewed from the
result of its `generate_batch` call: any exception marks the job `error`,
success uploads and marks it `finished`; a diverging batch never returns. -/
def process_job (batchResult : Option (Except BatchErr (List String))) : Option JobStatus :=
  match batchResult with
  | none => none
  | some (Except.error _) => some JobStatus.jobError
  | some (Except.ok _) => some JobStatus.finished

/-- A concrete loader: `a.mp4` and `b.mp4` open with durations 12 s and
100 s, every other path fails to open. -/
def c9load : String → Option ℚ := fun s =>
  if s = "a.mp4" then some 12 else if s = "b.mp4" then some 100 else none

/-! ### Projections of a planning result, and concrete runs

The concrete draw records below describe particular sequences of random
draws (all `uniform` parameters lie in `[0, 1]`, so they are genuine draws)
on which the theorems exhibit behaviours of the planner. -/

/-- The plan of a planning result (junk `[]` if the planner diverged). -/
def planOf (o : Option (PlanState × Bool)) : List (ℕ × ℚ × ℚ) :=
  (o.map fun r => r.1.plan).getD []

/-- The final global history of a planning result. -/
def gHistOf (o : Option (PlanState × Bool)) : Hist :=
  (o.map fun r => r.1.gHist).getD []

/-- The final local history of a planning result. -/
def lHistOf (o : Option (PlanState × Bool)) : Hist :=
  (o.map fun r => r.1.lHist).getD []

/-- Whether the planning result was reconciled by loop-extension. -/
def extendedOf (o : Option (PlanState × Bool)) : Bool :=
  (o.map fun r => r.2).getD false

/-- Draws for a batch over the two clips `[12, 100]` (2 clips and an empty
signature table, as when every frame extraction failed, so each round picks
its clip by `random.choice`): `num_clips = 8`, every duration draw takes
the midpoint `t = 1/2`, and the start draws place round 4's segment at the
low end of a reversed `random.uniform` range. -/
def c2Draws : Draws where
  numClipsR := 0
  clipChoiceR := fun _ => 0
  sampleR := fun _ l _ => l
  sdChoiceR := fun _ => 0
  durT := fun _ => 1 / 2
  segChoiceR := fun _ => 0
  startT := fun j => if j = 2 then 29 / 59 else if j = 4 then 1 else 0
  extractOk := fun _ => true
  sClipChoiceR := fun _ => 0
  sSegChoiceR := fun _ => 0
  sStartT := fun _ => 0
  sExtractOk := fun _ => true

/-- Planning context of the overlap run: clips of 12 s and 100 s. -/
def c2Ctx : PlanCtx := ⟨[12, 100], [], fun _ => 0, c2Draws⟩

/-- Draws over the two clips `[20, 100]`: `num_clips = 8`, duration draws
`t = 3/8` (value 1.9 s), all starts at the low end of their ranges, and the
shortfall pass picking clip 1. -/
def c3Draws : Draws where
  numClipsR := 0
  clipChoiceR := fun _ => 0
  sampleR := fun _ l _ => l
  sdChoiceR := fun _ => 0
  durT := fun _ => 3 / 8
  segChoiceR := fun _ => 0
  startT := fun _ => 0
  extractOk := fun _ => true
  sClipChoiceR := fun _ => 1
  sSegChoiceR := fun _ => 0
  sStartT := fun _ => 0
  sExtractOk := fun _ => true

/-- Planning context of the overshoot run: clips of 20 s and 100 s. -/
def c3Ctx : PlanCtx := ⟨[20, 100], [], fun _ => 0, c3Draws⟩

/-- Draws over the single 4-second clip: `num_clips = 8`, duration draws at
the midpoint (2.0 s). -/
def c4Draws : Draws where
  numClipsR := 0
  clipChoiceR := fun _ => 0
  sampleR := fun _ l _ => l
  sdChoiceR := fun _ => 0
  durT := fun _ => 1 / 2
  segChoiceR := fun _ => 0
  startT := fun _ => 0
  extractOk := fun _ => true
  sClipChoiceR := fun _ => 0
  sSegChoiceR := fun _ => 0
  sStartT := fun _ => 0
  sExtractOk := fun _ => true

/-- Planning context with one 4-second input clip. -/
def c4Ctx : PlanCtx := ⟨[4], [], fun _ => 0, c4Draws⟩

/-! Intermediate states of the `c2Ctx` run, round by round. -/

/-- `c2Ctx` state after round 0: clip 0 gets `(0, 2)`. -/
def c2s1 : PlanState :=
  ⟨[(0, [(0, 2)])], [(0, [(0, 2)])], [(0, 0, 2)], 2, [0], false⟩

/-- `c2Ctx` state after round 1: clip 1 gets `(0, 2)`. -/
def c2s2 : PlanState :=
  ⟨[(0, [(0, 2)]), (1, [(0, 2)])], [(0, [(0, 2)]), (1, [(0, 2)])],
   [(0, 0, 2), (1, 0, 2)], 4, [1], false⟩

/-- `c2Ctx` state after round 2: clip 0 gets `(5, 7)`. -/
def c2s3 : PlanState :=
  ⟨[(0, [(0, 2), (5, 7)]), (1, [(0, 2)])], [(0, [(0, 2), (5, 7)]), (1, [(0, 2)])],
   [(0, 0, 2), (1, 0, 2), (0, 5, 2)], 6, [0], false⟩

/-- `c2Ctx` state after round 3: clip 1 gets `(2.1, 4.1)`. -/
def c2s4 : PlanState :=
  ⟨[(0, [(0, 2), (5, 7)]), (1, [(0, 2), (21/10, 41/10)])],
   [(0, [(0, 2), (5, 7)]), (1, [(0, 2), (21/10, 41/10)])],
   [(0, 0, 2), (1, 0, 2), (0, 5, 2), (1, 21/10, 2)], 8, [1], false⟩

/-- `c2Ctx` state after round 4: clip 0 gets `(0.9, 2.9)`, overlapping its
round-0 segment `(0, 2)`. -/
def c2s5 : PlanState :=
  ⟨[(0, [(0, 2), (5, 7), (9/10, 29/10)]), (1, [(0, 2), (21/10, 41/10)])],
   [(0, [(0, 2), (5, 7), (9/10, 29/10)]), (1, [(0, 2), (21/10, 41/10)])],
   [(0, 0, 2), (1, 0, 2), (0, 5, 2), (1, 21/10, 2), (0, 9/10, 2)], 10, [0], false⟩

/-- `c2Ctx` state after round 5: clip 1 gets `(4.2, 6.2)`. -/
def c2s6 : PlanState :=
  ⟨[(0, [(0, 2), (5, 7), (9/10, 29/10)]), (1, [(0, 2), (21/10, 41/10), (21/5, 31/5)])],
   [(0, [(0, 2), (5, 7), (9/10, 29/10)]), (1, [(0, 2), (21/10, 41/10), (21/5, 31/5)])],
   [(0, 0, 2), (1, 0, 2), (0, 5, 2), (1, 21/10, 2), (0, 9/10, 2), (1, 21/5, 2)],
   12, [1], false⟩

/-- `c2Ctx` state after round 6: clip 0 gets `(7.1, 9.1)`. -/
def c2s7 : PlanState :=
  ⟨[(0, [(0, 2), (5, 7), (9/10, 29/10), (71/10, 91/10)]),
    (1, [(0, 2), (21/10, 41/10), (21/5, 31/5)])],
   [(0, [(0, 2), (5, 7), (9/10, 29/10), (71/10, 91/10)]),
    (1, [(0, 2), (21/10, 41/10), (21/5, 31/5)])],
   [(0, 0, 2), (1, 0, 2), (0, 5, 2), (1, 21/10, 2), (0, 9/10, 2), (1, 21/5, 2),
    (0, 71/10, 2)], 14, [0], false⟩

/-- `c2Ctx` state after round 7: clip 1 gets `(6.3, 8.3)`; total 16, break. -/
def c2s8 : PlanState :=
  ⟨[(0, [(0, 2), (5, 7), (9/10, 29/10), (71/10, 91/10)]),
    (1, [(0, 2), (21/10, 41/10), (21/5, 31/5), (63/10, 83/10)])],
   [(0, [(0, 2), (5, 7), (9/10, 29/10), (71/10, 91/10)]),
    (1, [(0, 2), (21/10, 41/10), (21/5, 31/5), (63/10, 83/10)])],
   [(0, 0, 2), (1, 0, 2), (0, 5, 2), (1, 21/10, 2), (0, 9/10, 2), (1, 21/5, 2),
    (0, 71/10, 2), (1, 63/10, 2)], 16, [1], true⟩

/-! Intermediate states of the `c3Ctx` run. -/

/-- `c3Ctx` state after round 0. -/
def c3s1 : PlanState :=
  ⟨[(0, [(0, 19/10)])], [(0, [(0, 19/10)])], [(0, 0, 19/10)], 19/10, [0], false⟩

/-- `c3Ctx` state after round 1. -/
def c3s2 : PlanState :=
  ⟨[(0, [(0, 19/10)]), (1, [(0, 19/10)])], [(0, [(0, 19/10)]), (1, [(0, 19/10)])],
   [(0, 0, 19/10), (1, 0, 19/10)], 19/5, [1], false⟩

/-- `c3Ctx` state after round 2. -/
def c3s3 : PlanState :=
  ⟨[(0, [(0, 19/10), (2, 39/10)]), (1, [(0, 19/10)])],
   [(0, [(0, 19/10), (2, 39/10)]), (1, [(0, 19/10)])],
   [(0, 0, 19/10), (1, 0, 19/10), (0, 2, 19/10)], 57/10, [0], false⟩

/-- `c3Ctx` state after round 3. -/
def c3s4 : PlanState :=
  ⟨[(0, [(0, 19/10), (2, 39/10)]), (1, [(0, 19/10), (2, 39/10)])],
   [(0, [(0, 19/10), (2, 39/10)]), (1, [(0, 19/10), (2, 39/10)])],
   [(0, 0, 19/10), (1, 0, 19/10), (0, 2, 19/10), (1, 2, 19/10)], 38/5, [1], false⟩

/-- `c3Ctx` state after round 4. -/
def c3s5 : PlanState :=
  ⟨[(0, [(0, 19/10), (2, 39/10), (4, 59/10)]), (1, [(0, 19/10), (2, 39/10)])],
   [(0, [(0, 19/10), (2, 39/10), (4, 59/10)]), (1, [(0, 19/10), (2, 39/10)])],
   [(0, 0, 19/10), (1, 0, 19/10), (0, 2, 19/10), (1, 2, 19/10), (0, 4, 19/10)],
   19/2, [0], false⟩

/-- `c3Ctx` state after round 5. -/
def c3s6 : PlanState :=
  ⟨[(0, [(0, 19/10), (2, 39/10), (4, 59/10)]), (1, [(0, 19/10), (2, 39/10), (4, 59/10)])],
   [(0, [(0, 19/10), (2, 39/10), (4, 59/10)]), (1, [(0, 19/10), (2, 39/10), (4, 59/10)])],
   [(0, 0, 19/10), (1, 0, 19/10), (0, 2, 19/10), (1, 2, 19/10), (0, 4, 19/10),
    (1, 4, 19/10)], 57/5, [1], false⟩

/-- `c3Ctx` state after round 6. -/
def c3s7 : PlanState :=
  ⟨[(0, [(0, 19/10), (2, 39/10), (4, 59/10), (6, 79/10)]),
    (1, [(0, 19/10), (2, 39/10), (4, 59/10)])],
   [(0, [(0, 19/10), (2, 39/10), (4, 59/10), (6, 79/10)]),
    (1, [(0, 19/10), (2, 39/10), (4, 59/10)])],
   [(0, 0, 19/10), (1, 0, 19/10), (0, 2, 19/10), (1, 2, 19/10), (0, 4, 19/10),
    (1, 4, 19/10), (0, 6, 19/10)], 133/10, [0], false⟩

/-- `c3Ctx` state after round 7 (the forced 2.4 s final round): 15.7 s. -/
def c3s8 : PlanState :=
  ⟨[(0, [(0, 19/10), (2, 39/10), (4, 59/10), (6, 79/10)]),
    (1, [(0, 19/10), (2, 39/10), (4, 59/10), (6, 42/5)])],
   [(0, [(0, 19/10), (2, 39/10), (4, 59/10), (6, 79/10)]),
    (1, [(0, 19/10), (2, 39/10), (4, 59/10), (6, 42/5)])],
   [(0, 0, 19/10), (1, 0, 19/10), (0, 2, 19/10), (1, 2, 19/10), (0, 4, 19/10),
    (1, 4, 19/10), (0, 6, 19/10), (1, 6, 12/5)], 157/10, [1], false⟩

/-- `c3Ctx` state after the shortfall iteration: `(8.5, 10.1)` of clip 1 is
planned and recorded in the global history only; 17.3 s. -/
def c3s9 : PlanState :=
  ⟨[(0, [(0, 19/10), (2, 39/10), (4, 59/10), (6, 79/10)]),
    (1, [(0, 19/10), (2, 39/10), (4, 59/10), (6, 42/5), (17/2, 101/10)])],
   [(0, [(0, 19/10), (2, 39/10), (4, 59/10), (6, 79/10)]),
    (1, [(0, 19/10), (2, 39/10), (4, 59/10), (6, 42/5)])],
   [(0, 0, 19/10), (1, 0, 19/10), (0, 2, 19/10), (1, 2, 19/10), (0, 4, 19/10),
    (1, 4, 19/10), (0, 6, 19/10), (1, 6, 12/5), (1, 17/2, 8/5)],
   173/10, [1], false⟩

/-- Ordering relation between successive merged intervals: separated by a
real gap, with the later one well-formed. -/
def mergedRel (a b : Interval) : Prop := a.2 < b.1 ∧ b.1 ≤ b.2

/-- An interval list covers `q` when one of its members contains it. -/
def covered (ms : List Interval) (q : Interval) : Prop :=
  ∃ m ∈ ms, m.1 ≤ q.1 ∧ q.2 ≤ m.2

/-! ## Lemmas and theorems -/

instance : IsTrans Interval mergedRel :=
  ⟨fun _ b _ hab hbc => ⟨lt_of_le_of_lt (le_of_lt (lt_of_lt_of_le hab.1 hab.2)) hbc.1, hbc.2⟩⟩

instance : IsTotal Interval (fun a b : Interval => a.1 ≤ b.1) :=
  ⟨fun a b => le_total a.1 b.1⟩

instance : IsTrans Interval (fun a b : Interval => a.1 ≤ b.1) :=
  ⟨fun _ _ _ => le_trans⟩

lemma notOverlap_left {w m : Interval} (h : m.2 ≤ w.1) : ¬ overlapI w m := by
  unfold overlapI
  push_neg
  calc min w.2 m.2 ≤ m.2 := min_le_right _ _
    _ ≤ w.1 := h
    _ ≤ max w.1 m.1 := le_max_left _ _

lemma notOverlap_right {w m : Interval} (h : w.2 ≤ m.1) : ¬ overlapI w m := by
  unfold overlapI
  push_neg
  calc min w.2 m.2 ≤ w.2 := min_le_left _ _
    _ ≤ m.1 := h
    _ ≤ max w.1 m.1 := le_max_right _ _

lemma notOverlap_subset {w m q : Interval} (hno : ¬ overlapI w m)
    (h1 : m.1 ≤ q.1) (h2 : q.2 ≤ m.2) : ¬ overlapI w q := by
  intro hov
  exact hno (lt_of_le_of_lt (max_le_max le_rfl h1)
    (lt_of_lt_of_le hov (min_le_min le_rfl h2)))

/-- `mergeStep` never empties the accumulator. -/
lemma mergeStep_ne_nil (acc : List Interval) (seg : Interval) : mergeStep acc seg ≠ [] := by
  unfold mergeStep
  cases acc with
  | nil => simp
  | cons a t => dsimp only; split <;> simp

lemma foldl_mergeStep_ne_nil :
    ∀ (l acc : List Interval), acc ≠ [] ∨ l ≠ [] → l.foldl mergeStep acc ≠ [] := by
  intro l
  induction l with
  | nil =>
      intro acc h
      simpa using h.resolve_right (by simp)
  | cons x t ih =>
      intro acc _
      rw [List.foldl_cons]
      exact ih (mergeStep acc x) (Or.inl (mergeStep_ne_nil acc x))

/-- Invariant of the merge accumulator (kept in reverse order): successive
entries are separated by real gaps and every entry is well formed. -/
def accInv (acc : List Interval) : Prop :=
  List.Chain' (fun a b : Interval => b.2 < a.1) acc
  ∧ ∀ p ∈ acc, 0 ≤ p.1 ∧ p.1 ≤ p.2 ∧ 0 < p.2

/-- Core correctness of the merge loop: starting from a well-formed
accumulator and a sorted list of well-formed intervals whose starts lie
beyond all accumulator starts, the fold preserves the invariant, preserves
coverage, and covers every processed interval. -/
lemma mergeFold_spec :
    ∀ (l acc : List Interval),
      List.Pairwise (fun a b : Interval => a.1 ≤ b.1) l →
      (∀ p ∈ l, 0 ≤ p.1 ∧ p.1 ≤ p.2 ∧ 0 < p.2) →
      accInv acc →
      (∀ p ∈ l, ∀ a ∈ acc, a.1 ≤ p.1) →
      accInv (l.foldl mergeStep acc)
      ∧ (∀ q, covered acc q → covered (l.foldl mergeStep acc) q)
      ∧ (∀ p ∈ l, covered (l.foldl mergeStep acc) p) := by
  intro l
  induction l with
  | nil =>
      intro acc _ _ hacc _
      exact ⟨hacc, fun q h => h, by simp⟩
  | cons x t ih =>
      intro acc hsort hgood hacc hbound
      rw [List.foldl_cons]
      have hxgood : 0 ≤ x.1 ∧ x.1 ≤ x.2 ∧ 0 < x.2 := hgood x (by simp)
      -- facts about one step
      have hstep : accInv (mergeStep acc x)
          ∧ (∀ q, covered acc q → covered (mergeStep acc x) q)
          ∧ covered (mergeStep acc x) x := by
        unfold mergeStep
        cases acc with
        | nil =>
            refine ⟨⟨by simp, by simpa using hxgood⟩, ?_, ?_⟩
            · rintro q ⟨m, hm, _⟩; simp at hm
            · exact ⟨x, by simp, le_refl _, le_refl _⟩
        | cons last rest =>
            have hlast : 0 ≤ last.1 ∧ last.1 ≤ last.2 ∧ 0 < last.2 :=
              hacc.2 last (by simp)
            dsimp only
            split
            · -- appended
              rename_i hgt
              refine ⟨⟨?_, ?_⟩, ?_, ?_⟩
              · exact List.chain'_cons.mpr ⟨hgt, hacc.1⟩
              · intro p hp
                rcases List.mem_cons.mp hp with h | h
                · exact h ▸ hxgood
                · exact hacc.2 p h
              · rintro q ⟨m, hm, h1, h2⟩
                exact ⟨m, List.mem_cons_of_mem _ hm, h1, h2⟩
              · exact ⟨x, by simp, le_refl _, le_refl _⟩
            · -- absorbed into the last interval
              rename_i hle
              push_neg at hle
              have hl1x : last.1 ≤ x.1 := hbound x (by simp) last (by simp)
              refine ⟨⟨?_, ?_⟩, ?_, ?_⟩
              · refine List.chain'_cons'.mpr ⟨?_, (List.chain'_cons'.mp hacc.1).2⟩
                intro y hy
                exact (List.chain'_cons'.mp hacc.1).1 y hy
              · intro p hp
                rcases List.mem_cons.mp hp with h | h
                · subst h
                  exact ⟨hlast.1, le_trans hlast.2.1 (le_max_left _ _),
                    lt_of_lt_of_le hlast.2.2 (le_max_left _ _)⟩
                · exact hacc.2 p (List.mem_cons_of_mem _ h)
              · rintro q ⟨m, hm, h1, h2⟩
                rcases List.mem_cons.mp hm with h | h
                · subst h
                  exact ⟨(m.1, max m.2 x.2), by simp, h1, le_trans h2 (le_max_left _ _)⟩
                · exact ⟨m, List.mem_cons_of_mem _ h, h1, h2⟩
              · exact ⟨(last.1, max last.2 x.2), by simp, hl1x, le_max_right _ _⟩
      -- push through the rest of the fold
      have hsort' : List.Pairwise (fun a b : Interval => a.1 ≤ b.1) t :=
        (List.pairwise_cons.mp hsort).2
      have hxle : ∀ p ∈ t, x.1 ≤ p.1 := (List.pairwise_cons.mp hsort).1
      have hgood' : ∀ p ∈ t, 0 ≤ p.1 ∧ p.1 ≤ p.2 ∧ 0 < p.2 :=
        fun p hp => hgood p (List.mem_cons_of_mem _ hp)
      have hbound' : ∀ p ∈ t, ∀ a ∈ mergeStep acc x, a.1 ≤ p.1 := by
        intro p hp a ha
        unfold mergeStep at ha
        cases acc with
        | nil =>
            have : a = x := by simpa using ha
            exact this ▸ hxle p hp
        | cons last rest =>
            dsimp only at ha
            split at ha
            · rcases List.mem_cons.mp ha with h | h
              · exact h ▸ hxle p hp
              · exact le_trans (hbound x (by simp) a h)
                  (hxle p hp)
            · rcases List.mem_cons.mp ha with h | h
              · have : a.1 = last.1 := by rw [h]
                rw [this]
                exact le_trans (hbound x (by simp) last (by simp)) (hxle p hp)
              · exact le_trans
                  (hbound x (by simp) a (List.mem_cons_of_mem _ h)) (hxle p hp)
      obtain ⟨h1, h2, h3⟩ := ih (mergeStep acc x) hsort' hgood' hstep.1 hbound'
      refine ⟨h1, fun q hq => h2 q (hstep.2.1 q hq), ?_⟩
      intro p hp
      rcases List.mem_cons.mp hp with h | h
      · exact h ▸ h2 x hstep.2.2
      · exact h3 p h

lemma mem_sortedByStart {x : Interval} {l : List Interval} :
    x ∈ sortedByStart l ↔ x ∈ l :=
  (List.perm_insertionSort _ l).mem_iff

lemma sortedByStart_pairwise (l : List Interval) :
    List.Pairwise (fun a b : Interval => a.1 ≤ b.1) (sortedByStart l) :=
  List.sorted_insertionSort _ l

lemma covered_reverse {ms : List Interval} {q : Interval} (h : covered ms q) :
    covered ms.reverse q := by
  obtain ⟨m, hm, h1, h2⟩ := h
  exact ⟨m, List.mem_reverse.mpr hm, h1, h2⟩

/-- Structure of the merged buffered intervals: ordered with real gaps,
well formed, and covering the buffered image of every used interval. -/
lemma mergedIntervals_spec (D buf : ℚ) (used : List Interval)
    (hbuf : 0 ≤ buf)
    (hval : ∀ p ∈ used, 0 ≤ p.1 ∧ p.1 < p.2 ∧ p.2 ≤ D) :
    List.Chain' (fun a b : Interval => a.2 < b.1) (mergedIntervals D buf used)
    ∧ (∀ p ∈ mergedIntervals D buf used, 0 ≤ p.1 ∧ p.1 ≤ p.2 ∧ 0 < p.2)
    ∧ (∀ q ∈ used, covered (mergedIntervals D buf used) (bufferInterval D buf q)) := by
  by_cases hu : used = []
  · subst hu
    refine ⟨?_, ?_, by simp⟩ <;>
      simp [mergedIntervals, sortedByStart, List.insertionSort]
  · obtain ⟨q0, hq0⟩ := List.exists_mem_of_ne_nil used hu
    have hD : 0 < D :=
      lt_of_le_of_lt (hval q0 hq0).1 (lt_of_lt_of_le (hval q0 hq0).2.1 (hval q0 hq0).2.2)
    have hbgood : ∀ p ∈ (sortedByStart used).map (bufferInterval D buf),
        0 ≤ p.1 ∧ p.1 ≤ p.2 ∧ 0 < p.2 := by
      intro p hp
      obtain ⟨q, hq, rfl⟩ := List.mem_map.mp hp
      have hq' := hval q (mem_sortedByStart.mp hq)
      refine ⟨le_max_left _ _, ?_, ?_⟩
      · refine max_le (le_min (le_of_lt hD) ?_) (le_min ?_ ?_)
        · linarith [hq'.1, hq'.2.1]
        · linarith [hq'.2.1, hq'.2.2]
        · linarith [hq'.2.1]
      · exact lt_min hD (by linarith [hq'.1, hq'.2.1])
    have hbsorted : List.Pairwise (fun a b : Interval => a.1 ≤ b.1)
        ((sortedByStart used).map (bufferInterval D buf)) := by
      refine List.Pairwise.map _ ?_ (sortedByStart_pairwise used)
      intro a b h
      exact max_le_max le_rfl (sub_le_sub_right h _)
    obtain ⟨hinv, _, hcov⟩ := mergeFold_spec
      ((sortedByStart used).map (bufferInterval D buf)) [] hbsorted hbgood
      ⟨List.chain'_nil, by simp⟩ (by simp)
    refine ⟨?_, ?_, ?_⟩
    · have : List.Chain' (flip fun a b : Interval => a.2 < b.1)
          (((sortedByStart used).map (bufferInterval D buf)).foldl mergeStep []) := hinv.1
      exact List.chain'_reverse.mpr this
    · intro p hp
      exact hinv.2 p (List.mem_reverse.mp hp)
    · intro q hq
      refine covered_reverse (hcov (bufferInterval D buf q) ?_)
      exact List.mem_map_of_mem _ (mem_sortedByStart.mpr hq)

lemma chain'_mergedRel {l : List Interval}
    (hc : List.Chain' (fun a b : Interval => a.2 < b.1) l)
    (hg : ∀ p ∈ l, p.1 ≤ p.2) : List.Chain' mergedRel l := by
  induction l with
  | nil => exact List.chain'_nil
  | cons a t ih =>
      refine List.chain'_cons'.mpr ⟨?_, ih (List.chain'_cons'.mp hc).2 ?_⟩
      · intro b hb
        exact ⟨(List.chain'_cons'.mp hc).1 b hb,
          (hg b (List.mem_cons_of_mem _ (List.mem_of_mem_head? hb))).trans_eq rfl⟩
      · intro p hp
        exact hg p (List.mem_cons_of_mem _ hp)

/-- Merged intervals in index form: any earlier interval ends strictly
before any later one starts. -/
lemma merged_sep (D buf : ℚ) (used : List Interval)
    (hbuf : 0 ≤ buf)
    (hval : ∀ p ∈ used, 0 ≤ p.1 ∧ p.1 < p.2 ∧ p.2 ≤ D) :
    ∀ i j (hi : i < (mergedIntervals D buf used).length)
      (hj : j < (mergedIntervals D buf used).length), i < j →
      (mergedIntervals D buf used)[i].2 < (mergedIntervals D buf used)[j].1 := by
  obtain ⟨hc, hg, _⟩ := mergedIntervals_spec D buf used hbuf hval
  have hpw : List.Pairwise mergedRel (mergedIntervals D buf used) :=
    List.chain'_iff_pairwise.mp (chain'_mergedRel hc (fun p hp => (hg p hp).2.1))
  intro i j hi hj hij
  exact (List.pairwise_iff_getElem.mp hpw i j hi hj hij).1

lemma getLastI_cons_cons (a b : Interval) (t : List Interval) :
    (a :: b :: t).getLastI = (b :: t).getLastI := by
  rw [List.getLastI_eq_getLast?, List.getLastI_eq_getLast?, List.getLast?_cons_cons]

lemma getLastI_mem : ∀ {l : List Interval}, l ≠ [] → l.getLastI ∈ l := by
  intro l
  induction l with
  | nil => intro h; exact absurd rfl h
  | cons a t ih =>
      intro _
      cases t with
      | nil => simp [List.getLastI]
      | cons b t2 =>
          rw [getLastI_cons_cons]
          exact List.mem_cons_of_mem _ (ih (by simp))

/-- In a gap-separated list, every interval ends no later than the last. -/
lemma le_getLastI_of_chain :
    ∀ {l : List Interval}, List.Chain' mergedRel l → ∀ m ∈ l, m.2 ≤ l.getLastI.2 := by
  intro l
  induction l with
  | nil => simp
  | cons a t ih =>
      intro hc m hm
      cases t with
      | nil =>
          have hma : m = a := by simpa using hm
          rw [hma]
          exact le_of_eq rfl
      | cons b t2 =>
          rw [getLastI_cons_cons]
          have hrel : mergedRel a b := (List.chain'_cons.mp hc).1
          have hrest := (List.chain'_cons.mp hc).2
          rcases List.mem_cons.mp hm with h | h
          · rw [h]
            have hb : b.2 ≤ (b :: t2).getLastI.2 := ih hrest b (by simp)
            have : a.2 < b.1 := hrel.1
            have : a.2 ≤ b.2 := le_of_lt (lt_of_lt_of_le hrel.1 hrel.2)
            linarith
          · exact ih hrest m h

/-- In a gap-separated list, every interval starts no earlier than the head. -/
lemma headI_le_of_pairwise {l : List Interval} (hpw : List.Pairwise mergedRel l)
    (hg : ∀ p ∈ l, p.1 ≤ p.2) : ∀ m ∈ l, l.headI.1 ≤ m.1 := by
  cases l with
  | nil => simp
  | cons a t =>
      intro m hm
      rcases List.mem_cons.mp hm with h | h
      · rw [h]
        exact le_of_eq rfl
      · have hrel := (List.pairwise_cons.mp hpw).1 m h
        have ha : a.1 ≤ a.2 := hg a (by simp)
        show a.1 ≤ m.1
        exact le_trans ha (le_of_lt hrel.1)

/-- A member of `l.zip l.tail` is a pair of adjacent entries of `l`. -/
lemma mem_zip_tail {l : List Interval} {ab : Interval × Interval}
    (h : ab ∈ l.zip l.tail) :
    ∃ i, ∃ h1 : i < l.length, ∃ h2 : i + 1 < l.length,
      ab.1 = l[i] ∧ ab.2 = l[i + 1] := by
  obtain ⟨i, hi, hg⟩ := List.getElem_of_mem h
  rw [List.length_zip, List.length_tail] at hi
  have h2 : i + 1 < l.length := by omega
  have h1 : i < l.length := by omega
  refine ⟨i, h1, h2, ?_, ?_⟩
  · rw [← hg, List.getElem_zip]
  · rw [← hg, List.getElem_zip]
    exact (List.getElem_tail _ _ _).symm ▸ rfl

/-- Unfolding of `find_available_segments` when the combined history is
non-empty. -/
lemma find_available_segments_eq (ci : ℕ) (d D mg buf : ℚ)
    (gh lh : List Interval) (hne : gh ++ lh ≠ []) :
    find_available_segments ci d D gh lh mg buf =
      (if (mergedIntervals D buf (gh ++ lh)).headI.1 > d
        then [((0 : ℚ), (mergedIntervals D buf (gh ++ lh)).headI.1)] else [])
      ++ ((mergedIntervals D buf (gh ++ lh)).zip
            (mergedIntervals D buf (gh ++ lh)).tail).filterMap
          (fun ab => if ab.2.1 - ab.1.2 ≥ d + mg then some (ab.1.2, ab.2.1 - d) else none)
      ++ (if D - (mergedIntervals D buf (gh ++ lh)).getLastI.2 ≥ d + mg
        then [((mergedIntervals D buf (gh ++ lh)).getLastI.2, D - d)] else []) := by
  simp only [find_available_segments]
  rw [if_neg]
  simp [List.isEmpty_iff, hne]

/-- C1 (amended): with a non-empty combined history of proper intervals,
(1) every pair `(s1, s2)` returned by `find_available_segments` bounds
start positions — any `s ∈ [s1, s2 - d]` — whose window `[s, s + d]` is
disjoint from the buffered image of every used interval; and a candidate
gap between (or around) the merged buffered intervals is included iff
(2) for the leading gap, its length strictly exceeds `d` (the code tests
`merged[0][0] > d`, not `≥`), and (3)/(4) for interior and trailing gaps,
its length is at least `d + min_gap`.  Interior and trailing pairs have
`d` already subtracted from their right ends. -/
theorem find_available_segments_correct
    (ci : ℕ) (d D mg buf : ℚ) (gh lh : List Interval)
    (hd : 0 < d) (hbuf : 0 ≤ buf)
    (hval : ∀ p ∈ gh ++ lh, 0 ≤ p.1 ∧ p.1 < p.2 ∧ p.2 ≤ D)
    (hne : gh ++ lh ≠ []) :
    (∀ p ∈ find_available_segments ci d D gh lh mg buf,
      ∀ s : ℚ, p.1 ≤ s → s + d ≤ p.2 →
        ∀ q ∈ gh ++ lh, ¬ overlapI (s, s + d) (bufferInterval D buf q))
    ∧ (((0 : ℚ), (mergedIntervals D buf (gh ++ lh)).headI.1)
          ∈ find_available_segments ci d D gh lh mg buf
        ↔ d < (mergedIntervals D buf (gh ++ lh)).headI.1)
    ∧ (∀ ab ∈ (mergedIntervals D buf (gh ++ lh)).zip
          (mergedIntervals D buf (gh ++ lh)).tail,
        ((ab.1.2, ab.2.1 - d) ∈ find_available_segments ci d D gh lh mg buf
          ↔ d + mg ≤ ab.2.1 - ab.1.2))
    ∧ (((mergedIntervals D buf (gh ++ lh)).getLastI.2, D - d)
          ∈ find_available_segments ci d D gh lh mg buf
        ↔ d + mg ≤ D - (mergedIntervals D buf (gh ++ lh)).getLastI.2) := by
  rw [find_available_segments_eq ci d D mg buf gh lh hne]
  obtain ⟨hc, hg, hcov⟩ := mergedIntervals_spec D buf (gh ++ lh) hbuf hval
  have hsep := merged_sep D buf (gh ++ lh) hbuf hval
  set M := mergedIntervals D buf (gh ++ lh) with hMdef
  have hchain : List.Chain' mergedRel M := chain'_mergedRel hc fun p hp => (hg p hp).2.1
  have hpw : List.Pairwise mergedRel M := List.chain'_iff_pairwise.mp hchain
  have hMne : M ≠ [] := by
    rw [hMdef]
    unfold mergedIntervals
    rw [Ne, List.reverse_eq_nil_iff]
    apply foldl_mergeStep_ne_nil
    refine Or.inr ?_
    have hlen : ((sortedByStart (gh ++ lh)).map (bufferInterval D buf)).length
        = (gh ++ lh).length := by
      rw [List.length_map]
      exact (List.perm_insertionSort _ (gh ++ lh)).length_eq
    intro hnil
    rw [hnil] at hlen
    exact hne (List.length_eq_zero.mp hlen.symm)
  have hhead0 : M.headI ∈ M := by
    cases hM : M with
    | nil => exact absurd hM hMne
    | cons a t => simp
  have hlast_mem : M.getLastI ∈ M := getLastI_mem hMne
  -- helper: dismantle membership in the three-part concatenation
  have hmem : ∀ p : Interval,
      p ∈ (if M.headI.1 > d then [((0 : ℚ), M.headI.1)] else [])
        ++ (M.zip M.tail).filterMap
            (fun ab => if ab.2.1 - ab.1.2 ≥ d + mg then some (ab.1.2, ab.2.1 - d) else none)
        ++ (if D - M.getLastI.2 ≥ d + mg then [(M.getLastI.2, D - d)] else []) ↔
      ((M.headI.1 > d ∧ p = ((0 : ℚ), M.headI.1))
        ∨ (∃ ab ∈ M.zip M.tail, ab.2.1 - ab.1.2 ≥ d + mg ∧ p = (ab.1.2, ab.2.1 - d))
        ∨ (D - M.getLastI.2 ≥ d + mg ∧ p = (M.getLastI.2, D - d))) := by
    intro p
    constructor
    · intro hp
      rcases List.mem_append.mp hp with hp | hp
      · rcases List.mem_append.mp hp with hp | hp
        · left
          split at hp
          · exact ⟨by assumption, by simpa using hp⟩
          · simp at hp
        · right; left
          obtain ⟨ab, habz, hsome⟩ := List.mem_filterMap.mp hp
          split at hsome
          · exact ⟨ab, habz, by assumption, (Option.some_inj.mp hsome).symm⟩
          · simp at hsome
      · right; right
        split at hp
        · exact ⟨by assumption, by simpa using hp⟩
        · simp at hp
    · intro hp
      rcases hp with ⟨hcond, rfl⟩ | ⟨ab, habz, hcond, rfl⟩ | ⟨hcond, rfl⟩
      · exact List.mem_append.mpr (Or.inl (List.mem_append.mpr (Or.inl (by
          rw [if_pos hcond]; simp))))
      · refine List.mem_append.mpr (Or.inl (List.mem_append.mpr (Or.inr ?_)))
        exact List.mem_filterMap.mpr ⟨ab, habz, by rw [if_pos hcond]⟩
      · exact List.mem_append.mpr (Or.inr (by rw [if_pos hcond]; simp))
  refine ⟨?_, ?_, ?_, ?_⟩
  · -- safety
    intro p hp s hs1 hs2 q hq
    obtain ⟨m, hmM, hm1, hm2⟩ := hcov q hq
    refine notOverlap_subset ?_ hm1 hm2
    obtain ⟨jm, hjm, rfl⟩ := List.getElem_of_mem hmM
    rcases (hmem p).mp hp with ⟨hcond, rfl⟩ | ⟨ab, habz, hcond, rfl⟩ | ⟨hcond, rfl⟩
    · -- leading pair
      refine notOverlap_right ?_
      calc s + d ≤ M.headI.1 := hs2
        _ ≤ M[jm].1 := headI_le_of_pairwise hpw
            (fun x hx => (hg x hx).2.1) _ (List.getElem_mem hjm)
    · -- interior pair
      obtain ⟨i, h1, h2, hab1, hab2⟩ := mem_zip_tail habz
      rcases Nat.lt_or_ge jm (i + 1) with hj | hj
      · refine notOverlap_left ?_
        have hm2i : M[jm].2 ≤ M[i].2 := by
          rcases Nat.lt_or_eq_of_le (Nat.lt_succ_iff.mp hj) with h | h
          · exact le_of_lt (lt_of_lt_of_le (hsep jm i hjm h1 h)
              (hg _ (List.getElem_mem h1)).2.1)
          · subst h
            exact le_rfl
        calc M[jm].2 ≤ M[i].2 := hm2i
          _ = ab.1.2 := by rw [hab1]
          _ ≤ s := hs1
      · refine notOverlap_right ?_
        have hm1i : M[i + 1].1 ≤ M[jm].1 := by
          rcases Nat.lt_or_eq_of_le hj with h | h
          · exact le_of_lt (lt_of_le_of_lt (hg _ (List.getElem_mem h2)).2.1
              (hsep (i + 1) jm h2 hjm h))
          · subst h
            exact le_rfl
        calc s + d ≤ ab.2.1 - d := hs2
          _ ≤ ab.2.1 := by linarith
          _ = M[i + 1].1 := by rw [hab2]
          _ ≤ M[jm].1 := hm1i
    · -- trailing pair
      refine notOverlap_left ?_
      calc M[jm].2 ≤ M.getLastI.2 := le_getLastI_of_chain hchain _ (List.getElem_mem hjm)
        _ ≤ s := hs1
  · -- leading iff
    constructor
    · intro hp
      rcases (hmem _).mp hp with ⟨hcond, _⟩ | ⟨ab, habz, _, heq⟩ | ⟨_, heq⟩
      · exact hcond
      · exfalso
        obtain ⟨i, h1, h2, hab1, _⟩ := mem_zip_tail habz
        have : (0 : ℚ) = ab.1.2 := congrArg Prod.fst heq
        have hpos : 0 < ab.1.2 := by
          rw [hab1]; exact (hg _ (List.getElem_mem h1)).2.2
        linarith [this ▸ hpos]
      · exfalso
        have : (0 : ℚ) = M.getLastI.2 := congrArg Prod.fst heq
        have hpos : 0 < M.getLastI.2 := (hg _ hlast_mem).2.2
        linarith [this ▸ hpos]
    · intro hcond
      exact (hmem _).mpr (Or.inl ⟨hcond, rfl⟩)
  · -- interior iff
    intro ab habz
    obtain ⟨i, h1, h2, hab1, hab2⟩ := mem_zip_tail habz
    have hab1pos : 0 < ab.1.2 := by
      rw [hab1]; exact (hg _ (List.getElem_mem h1)).2.2
    constructor
    · intro hp
      rcases (hmem _).mp hp with ⟨_, heq⟩ | ⟨ab', habz', hcond', heq⟩ | ⟨_, heq⟩
      · exfalso
        have : ab.1.2 = (0 : ℚ) := congrArg Prod.fst heq
        linarith [this ▸ hab1pos]
      · obtain ⟨i', h1', h2', hab1', hab2'⟩ := mem_zip_tail habz'
        have he1 : ab.1.2 = ab'.1.2 := congrArg Prod.fst heq
        have e1 : ab'.1.2 = M[i'].2 := by rw [hab1']
        have e2 : ab.1.2 = M[i].2 := by rw [hab1]
        have hii : i' = i := by
          by_contra hne'
          rcases Nat.lt_or_ge i' i with h | h
          · have hlt := hsep i' i h1' h1 h
            have hle : M[i].1 ≤ M[i].2 := (hg _ (List.getElem_mem h1)).2.1
            have hEq : M[i].2 = M[i'].2 := by rw [← e2, he1, e1]
            linarith
          · have hlt2 : i < i' := lt_of_le_of_ne h fun hh => hne' hh.symm
            have hlt := hsep i i' h1 h1' hlt2
            have hle : M[i'].1 ≤ M[i'].2 := (hg _ (List.getElem_mem h1')).2.1
            have hEq : M[i].2 = M[i'].2 := by rw [← e2, he1, e1]
            linarith
        subst hii
        have hsnd : ab'.2.1 - ab'.1.2 = ab.2.1 - ab.1.2 := by
          rw [hab2', hab2, ← he1]
        linarith [hcond', hsnd]
      · exfalso
        have heq1 : ab.1.2 = M.getLastI.2 := congrArg Prod.fst heq
        have hlt : ab.1.2 < M.getLastI.2 := by
          have hstep : M[i].2 < M[i + 1].1 := hsep i (i + 1) h1 h2 (Nat.lt_succ_self i)
          have hle2 : M[i + 1].1 ≤ M[i + 1].2 := (hg _ (List.getElem_mem h2)).2.1
          have hlast : M[i + 1].2 ≤ M.getLastI.2 :=
            le_getLastI_of_chain hchain _ (List.getElem_mem h2)
          rw [hab1]
          linarith
        linarith [heq1 ▸ hlt]
    · intro hcond
      exact (hmem _).mpr (Or.inr (Or.inl ⟨ab, habz, hcond, rfl⟩))
  · -- trailing iff
    have hlastpos : 0 < M.getLastI.2 := (hg _ hlast_mem).2.2
    constructor
    · intro hp
      rcases (hmem _).mp hp with ⟨_, heq⟩ | ⟨ab', habz', hcond', heq⟩ | ⟨hcond, _⟩
      · exfalso
        have : M.getLastI.2 = (0 : ℚ) := congrArg Prod.fst heq
        linarith [this ▸ hlastpos]
      · exfalso
        obtain ⟨i', h1', h2', hab1', hab2'⟩ := mem_zip_tail habz'
        have heq1 : M.getLastI.2 = ab'.1.2 := congrArg Prod.fst heq
        have hlt : ab'.1.2 < M.getLastI.2 := by
          have hstep : M[i'].2 < M[i' + 1].1 := hsep i' (i' + 1) h1' h2' (Nat.lt_succ_self i')
          have hle2 : M[i' + 1].1 ≤ M[i' + 1].2 := (hg _ (List.getElem_mem h2')).2.1
          have hlast : M[i' + 1].2 ≤ M.getLastI.2 :=
            le_getLastI_of_chain hchain _ (List.getElem_mem h2')
          rw [hab1']
          linarith
        linarith [heq1 ▸ hlt]
      · exact hcond
    · intro hcond
      exact (hmem _).mpr (Or.inr (Or.inr ⟨hcond, rfl⟩))

/-- C1 counterexample: with one used interval `(2.1, 7.9)` in a 10 s clip,
buffering gives the merged interval `(2, 8)` and the leading gap `[0, 2]`
has length exactly equal to the desired duration 2.  The claim says a
leading gap qualifies when its length is at least the desired duration,
but the code tests `merged[0][0] > desired_duration` strictly and returns
no segment at all. -/
theorem find_leading_gap_at_exact_length_excluded :
    find_available_segments 0 2 10 [(21/10, 79/10)] [] (1/2) (1/10) = []
    ∧ (mergedIntervals 10 (1/10) ([(21/10, 79/10)] ++ [])).headI = (2, 8)
    ∧ ¬ ((((0 : ℚ), (2 : ℚ)) ∈ find_available_segments 0 2 10 [(21/10, 79/10)] [] (1/2) (1/10))
          ↔ ((2 : ℚ) - 0 ≥ 2)) := by
  have h1 : find_available_segments 0 2 10 [(21/10, 79/10)] [] (1/2) (1/10) = [] := by
    norm_num [find_available_segments, mergedIntervals, sortedByStart, bufferInterval,
      mergeStep, List.insertionSort, List.orderedInsert, List.getLastI, List.headI,
      List.filterMap]
  refine ⟨h1, ?_, ?_⟩
  · norm_num [mergedIntervals, sortedByStart, bufferInterval, mergeStep,
      List.insertionSort, List.orderedInsert, List.headI]
  · rw [h1]
    norm_num

/-- Witness for the amended C1 theorem on the history `[(3, 5)]` in a 10 s
clip: the merged buffered interval is `(2.9, 5.1)`, the leading gap has
length 2.9 > 2, and the leading pair `(0, 2.9)` is returned. -/
theorem find_available_segments_correct_witness :
    ((0 : ℚ) < 2 ∧ (0 : ℚ) ≤ 1/10
      ∧ (∀ p ∈ ([((3 : ℚ), (5 : ℚ))] ++ []), 0 ≤ p.1 ∧ p.1 < p.2 ∧ p.2 ≤ 10))
    ∧ ((((0 : ℚ), (mergedIntervals 10 (1/10) ([((3 : ℚ), (5 : ℚ))] ++ [])).headI.1)
          ∈ find_available_segments 0 2 10 [(3, 5)] [] (1/2) (1/10))
        ↔ 2 < (mergedIntervals 10 (1/10) ([((3 : ℚ), (5 : ℚ))] ++ [])).headI.1) := by
  constructor
  · refine ⟨by norm_num, by norm_num, ?_⟩
    intro p hp
    have : p = ((3 : ℚ), (5 : ℚ)) := by simpa using hp
    rw [this]
    norm_num
  · exact (find_available_segments_correct 0 2 10 (1/2) (1/10) [(3, 5)] []
      (by norm_num) (by norm_num)
      (by
        intro p hp
        have : p = ((3 : ℚ), (5 : ℚ)) := by simpa using hp
        rw [this]
        norm_num)
      (by simp)).2.1

/-- C6: with no usage history at all, `find_available_segments` returns the
single full gap `(0, D - d)` for any `0 < d ≤ D` (the empty-history early
return at lines 885-887). -/
theorem find_available_segments_empty (ci : ℕ) (d D mg buf : ℚ)
    (hd : 0 < d) (hdD : d ≤ D) :
    find_available_segments ci d D [] [] mg buf = [(0, D - d)] := by
  simp [find_available_segments]

/-- Witness for the empty-history theorem at `d = 2`, `D = 10`. -/
theorem find_available_segments_empty_witness :
    (0 : ℚ) < 2 ∧ (2 : ℚ) ≤ 10
      ∧ find_available_segments 0 2 10 [] [] (1/2) (1/10) = [(0, 8)] := by
  refine ⟨by norm_num, by norm_num, ?_⟩
  rw [find_available_segments_empty 0 2 10 (1/2) (1/10) (by norm_num) (by norm_num)]
  norm_num

/-! ### Duration-budget invariants (claim C3) -/

lemma uniformDraw_le_max {t a b : ℚ} (h0 : 0 ≤ t) (h1 : t ≤ 1) :
    uniformDraw t a b ≤ max a b := by
  unfold uniformDraw
  rcases le_total a b with h | h
  · calc a + (b - a) * t ≤ b := by nlinarith
      _ ≤ max a b := le_max_right _ _
  · calc a + (b - a) * t ≤ a := by nlinarith
      _ ≤ max a b := le_max_left _ _

lemma numClipsOf_cast_bounds (ctx : PlanCtx) :
    (8 : ℚ) ≤ (numClipsOf ctx : ℚ) ∧ (0 : ℚ) < (numClipsOf ctx : ℚ) := by
  have h8 : 8 ≤ numClipsOf ctx := Nat.le_add_right 8 _
  constructor
  · exact_mod_cast h8
  · have : 0 < numClipsOf ctx := by omega
    exact_mod_cast this

lemma avgOf_le (ctx : PlanCtx) : avgOf ctx ≤ 2 := by
  obtain ⟨h8, hpos⟩ := numClipsOf_cast_bounds ctx
  unfold avgOf
  rw [div_le_iff hpos]
  linarith

lemma minDurOf_le (ctx : PlanCtx) : minDurOf ctx ≤ 8/5 := by
  have havg := avgOf_le ctx
  unfold minDurOf
  refine max_le (by norm_num) (by linarith)

lemma maxDurOf_le (ctx : PlanCtx) : maxDurOf ctx ≤ 12/5 := by
  have havg := avgOf_le ctx
  unfold maxDurOf
  calc min 3 (avgOf ctx * (6/5)) ≤ avgOf ctx * (6/5) := min_le_right _ _
    _ ≤ 12/5 := by linarith

/-- Any duration the planner draws is at most 2.4 s. -/
lemma drawnDur_le (ctx : PlanCtx) (t x : ℚ) (h0 : 0 ≤ t) (h1 : t ≤ 1) :
    uniformDraw t (minDurOf ctx) (min (maxDurOf ctx) x) ≤ 12/5 := by
  calc uniformDraw t (minDurOf ctx) (min (maxDurOf ctx) x)
      ≤ max (minDurOf ctx) (min (maxDurOf ctx) x) := uniformDraw_le_max h0 h1
    _ ≤ 12/5 := max_le (le_trans (minDurOf_le ctx) (by norm_num))
        (le_trans (min_le_left _ _) (maxDurOf_le ctx))

/-- Any clamped duration (final round and shortfall pass) is at most 2.4 s. -/
lemma clampedDur_le (ctx : PlanCtx) (x : ℚ) :
    max (minDurOf ctx) (min (maxDurOf ctx) x) ≤ 12/5 :=
  max_le (le_trans (minDurOf_le ctx) (by norm_num))
    (le_trans (min_le_left _ _) (maxDurOf_le ctx))

lemma planSum_append (l : List (ℕ × ℚ × ℚ)) (x : ℕ × ℚ × ℚ) :
    planSum (l ++ [x]) = planSum l + x.2.2 := by
  simp [planSum]

/-- Running invariant of the duration budget: the running total is the sum
of the planned durations, stays below 18.4 s, and is below the target
until the loop has broken. -/
def DurInv (st : PlanState) : Prop :=
  st.total = planSum st.plan ∧ st.total < 92/5 ∧ (st.broke = false → st.total < 16)

lemma roundDuration_le (ctx : PlanCtx) (j : ℕ) (st : PlanState)
    (h0 : 0 ≤ ctx.draws.durT j) (h1 : ctx.draws.durT j ≤ 1) :
    roundDuration ctx j st ≤ 12/5 := by
  unfold roundDuration
  split
  · exact drawnDur_le ctx _ _ h0 h1
  · exact clampedDur_le ctx _

/-- Characterization of one main-loop round: either the state's plan,
total, break flag and histories are unchanged (skip, or `break` already
taken), or a segment was acquired (recorded in both histories, appended to
the plan, total increased by a duration bounded by 2.4 s for genuine
draws), or extraction failed (recorded in both histories only). -/
lemma mainRound_cases (ctx : PlanCtx) (j : ℕ) (st : PlanState) :
    ((mainRound ctx j st).plan = st.plan ∧ (mainRound ctx j st).total = st.total
      ∧ (mainRound ctx j st).broke = st.broke
      ∧ (mainRound ctx j st).gHist = st.gHist ∧ (mainRound ctx j st).lHist = st.lHist)
    ∨ (∃ c s dur, st.broke = false
        ∧ (0 ≤ ctx.draws.durT j → ctx.draws.durT j ≤ 1 → dur ≤ 12/5)
        ∧ (mainRound ctx j st).plan = st.plan ++ [(c, s, dur)]
        ∧ (mainRound ctx j st).total = st.total + dur
        ∧ (mainRound ctx j st).broke = decide (16 ≤ st.total + dur)
        ∧ (mainRound ctx j st).gHist = histAppend st.gHist c (s, s + dur)
        ∧ (mainRound ctx j st).lHist = histAppend st.lHist c (s, s + dur))
    ∨ (∃ c s dur,
        (mainRound ctx j st).plan = st.plan ∧ (mainRound ctx j st).total = st.total
        ∧ (mainRound ctx j st).broke = st.broke
        ∧ (mainRound ctx j st).gHist = histAppend st.gHist c (s, s + dur)
        ∧ (mainRound ctx j st).lHist = histAppend st.lHist c (s, s + dur)) := by
  unfold mainRound
  by_cases hb : st.broke
  · rw [if_pos hb]
    left
    exact ⟨rfl, rfl, rfl, rfl, rfl⟩
  · rw [if_neg hb]
    dsimp only
    split
    · left
      exact ⟨rfl, rfl, rfl, rfl, rfl⟩
    · split
      · right; left
        refine ⟨_, _, _, Bool.eq_false_iff.mpr hb,
          fun h0 h1 => roundDuration_le ctx j st h0 h1, rfl, rfl, rfl, rfl, rfl⟩
      · right; right
        exact ⟨_, _, _, rfl, rfl, rfl, rfl, rfl⟩

lemma mainRound_durInv (ctx : PlanCtx) (j : ℕ) (st : PlanState)
    (h0 : 0 ≤ ctx.draws.durT j) (h1 : ctx.draws.durT j ≤ 1)
    (hinv : DurInv st) : DurInv (mainRound ctx j st) := by
  rcases mainRound_cases ctx j st with
    ⟨hp, ht, hbk, _, _⟩ | ⟨c, s, dur, hbf, hdle, hp, ht, hbk, _, _⟩ |
    ⟨c, s, dur, hp, ht, hbk, _, _⟩
  · exact ⟨by rw [ht, hp, hinv.1], by rw [ht]; exact hinv.2.1,
      fun h => by rw [ht]; exact hinv.2.2 (by rw [← hbk]; exact h)⟩
  · have hlt : st.total < 16 := hinv.2.2 hbf
    have hdb : dur ≤ 12/5 := hdle h0 h1
    refine ⟨by rw [ht, hp, planSum_append, hinv.1], by rw [ht]; linarith, ?_⟩
    intro h
    rw [hbk] at h
    have := of_decide_eq_false h
    rw [ht]
    linarith [lt_of_not_le this]
  · exact ⟨by rw [ht, hp, hinv.1], by rw [ht]; exact hinv.2.1,
      fun h => by rw [ht]; exact hinv.2.2 (by rw [← hbk]; exact h)⟩

lemma mainPhase_durInv (ctx : PlanCtx) (gh0 : Hist)
    (hdur : ∀ j, 0 ≤ ctx.draws.durT j ∧ ctx.draws.durT j ≤ 1) :
    DurInv (mainPhase ctx gh0) := by
  unfold mainPhase
  have hinit : DurInv (⟨gh0, [], [], 0, [], false⟩ : PlanState) :=
    ⟨by simp [planSum], by norm_num, fun _ => by norm_num⟩
  generalize (⟨gh0, [], [], 0, [], false⟩ : PlanState) = st at hinit ⊢
  generalize List.range (numClipsOf ctx) = l
  induction l generalizing st with
  | nil => exact hinit
  | cons j t ih =>
      rw [List.foldl_cons]
      exact ih _ (mainRound_durInv ctx j st (hdur j).1 (hdur j).2 hinit)

/-- The shortfall loop preserves the total/plan correspondence and the
18.4 s bound. -/
lemma shortfallLoop_durInv (ctx : PlanCtx) :
    ∀ (fuel k : ℕ) (st st' : PlanState),
      st.total = planSum st.plan ∧ st.total < 92/5 →
      shortfallLoop ctx fuel k st = some st' →
      st'.total = planSum st'.plan ∧ st'.total < 92/5 := by
  intro fuel
  induction fuel with
  | zero =>
      intro k st st' hinv hrun
      unfold shortfallLoop at hrun
      split at hrun
      · exact absurd hrun (by simp)
      · cases hrun
        exact hinv
  | succ n ih =>
      intro k st st' hinv hrun
      unfold shortfallLoop at hrun
      split at hrun
      · rename_i hguard
        dsimp only at hrun
        split at hrun
        · exact ih (k + 1) st st' hinv hrun
        · split at hrun
          · cases hrun
            exact hinv
          · refine ih (k + 1) _ st' ⟨?_, ?_⟩ hrun
            · dsimp only
              rw [planSum_append, hinv.1]
            · have hd := clampedDur_le ctx (16 - st.total)
              have hlt : st.total < 16 := hguard.1
              dsimp only
              linarith
      · cases hrun
        exact hinv

/-- C3 (amended): a completed plan either was reconciled to exactly the
16 s target by loop-extension (when its segment durations sum to less than
16 s), or its segment durations sum to at least 16 s but strictly less
than `16 + 2.4` s — the 2.4 s slack, not 1.0 s, is what the code
guarantees, because the shortfall pass adds at least `min_clip_dur`
however small the remaining deficit is.  Composition then trims anything
beyond 17 s back to exactly 16 s. -/
theorem completed_plan_duration_bounds
    (ctx : PlanCtx) (gh0 : Hist) (fuel : ℕ) (st : PlanState) (ext : Bool)
    (hdur : ∀ j, 0 ≤ ctx.draws.durT j ∧ ctx.draws.durT j ≤ 1)
    (hrun : planOutput ctx gh0 fuel = some (st, ext))
    (hne : st.plan ≠ []) :
    (ext = true → st.total = 16 ∧ planSum st.plan < 16)
    ∧ (ext = false →
        16 ≤ planSum st.plan ∧ planSum st.plan < 92/5 ∧ st.total = planSum st.plan)
    ∧ composedDuration (planSum st.plan) ≤ 16 + 1
    ∧ (16 + 1 < planSum st.plan → composedDuration (planSum st.plan) = 16) := by
  unfold planOutput at hrun
  obtain ⟨st1, hloop, hext⟩ := Option.map_eq_some'.mp hrun
  have hinv0 := mainPhase_durInv ctx gh0 hdur
  have hinv1 := shortfallLoop_durInv ctx fuel 0 (mainPhase ctx gh0) st1
    ⟨hinv0.1, hinv0.2.1⟩ hloop
  have hcomp1 : composedDuration (planSum st.plan) ≤ 16 + 1 := by
    unfold composedDuration
    split
    · norm_num
    · rename_i h
      push_neg at h
      linarith
  have hcomp2 : 16 + 1 < planSum st.plan → composedDuration (planSum st.plan) = 16 := by
    intro h
    unfold composedDuration
    rw [if_pos h]
  unfold loopExtend at hext
  split at hext
  · rename_i hcond
    injection hext with hst hxt
    refine ⟨fun _ => ⟨by rw [← hst], ?_⟩, fun hf => absurd (hxt ▸ hf) (by simp), hcomp1, hcomp2⟩
    have hpl : st.plan = st1.plan := by rw [← hst]
    rw [hpl, ← hinv1.1]
    exact hcond.1
  · rename_i hcond
    injection hext with hst hxt
    push_neg at hcond
    have hplan : st1.plan ≠ [] := by rw [hst]; exact hne
    have h16 : 16 ≤ st1.total :=
      le_of_not_lt fun hl => hplan (List.isEmpty_iff.mp (hcond hl))
    refine ⟨fun ht => absurd (hxt ▸ ht) (by simp), fun _ => ⟨?_, ?_, ?_⟩, hcomp1, hcomp2⟩
    · rw [← hst, ← hinv1.1]
      exact h16
    · rw [← hst, ← hinv1.1]
      exact hinv1.2
    · rw [← hst]
      exact hinv1.1

/-! ### The dissimilarity-based clip selector (claim C7) -/

lemma le_foldl_max : ∀ (xs : List ℚ) (a : ℚ), a ≤ xs.foldl max a := by
  intro xs
  induction xs with
  | nil => intro a; exact le_rfl
  | cons x t ih => intro a; exact le_trans (le_max_left a x) (ih (max a x))

lemma mem_le_foldl_max : ∀ (xs : List ℚ) (a : ℚ), ∀ x ∈ xs, x ≤ xs.foldl max a := by
  intro xs
  induction xs with
  | nil => intro a x hx; exact absurd hx (List.not_mem_nil x)
  | cons y t ih =>
      intro a x hx
      rcases List.mem_cons.mp hx with h | h
      · subst h
        exact le_trans (le_max_right a x) (le_foldl_max t (max a x))
      · exact ih (max a y) x h

lemma foldl_max_mem : ∀ (xs : List ℚ) (a : ℚ),
    xs.foldl max a = a ∨ xs.foldl max a ∈ xs := by
  intro xs
  induction xs with
  | nil => intro a; exact Or.inl rfl
  | cons x t ih =>
      intro a
      rcases ih (max a x) with h | h
      · rcases max_choice a x with he | he
        · exact Or.inl (by rw [List.foldl_cons, h, he])
        · exact Or.inr (by rw [List.foldl_cons, h, he]; exact List.mem_cons_self x t)
      · exact Or.inr (List.mem_cons_of_mem x h)

lemma le_pyMax (l : List ℚ) : ∀ x ∈ l, x ≤ pyMax l := by
  cases l with
  | nil => intro x hx; exact absurd hx (List.not_mem_nil x)
  | cons a t =>
      intro x hx
      rcases List.mem_cons.mp hx with h | h
      · rw [h]
        exact le_foldl_max t a
      · exact mem_le_foldl_max t a x h

lemma pyMax_mem (l : List ℚ) (h : l ≠ []) : pyMax l ∈ l := by
  cases l with
  | nil => exact absurd rfl h
  | cons a t =>
      rcases foldl_max_mem t a with he | he
      · show t.foldl max a ∈ a :: t
        rw [he]
        exact List.mem_cons_self a t
      · show t.foldl max a ∈ a :: t
        exact List.mem_cons_of_mem a he

/-- `list.index(v)` returns the first occurrence: anything strictly before
the returned index differs from `v`. -/
lemma get_ne_of_lt_indexOf : ∀ (l : List ℚ) (a : ℚ) (k : ℕ) (hk : k < l.length),
    k < l.indexOf a → l.get ⟨k, hk⟩ ≠ a := by
  intro l
  induction l with
  | nil => intro a k hk; exact absurd hk (by simp)
  | cons x t ih =>
      intro a k hk hlt
      by_cases hxa : x = a
      · rw [List.indexOf_cons_eq t hxa] at hlt
        exact absurd hlt (Nat.not_lt_zero k)
      · cases k with
        | zero => exact hxa
        | succ m =>
            rw [List.indexOf_cons_ne t hxa] at hlt
            exact ih a m (Nat.lt_of_succ_lt_succ hk) (Nat.lt_of_succ_lt_succ hlt)

lemma list_sum_const (l : List ℚ) (c : ℚ) (h : ∀ x ∈ l, x = c) :
    l.sum = c * l.length := by
  induction l with
  | nil => simp
  | cons x t ih =>
      have hx := h x (List.mem_cons_self x t)
      have ht := ih fun y hy => h y (List.mem_cons_of_mem x hy)
      rw [List.sum_cons, hx, ht, List.length_cons]
      push_cast
      ring

/-- C7: the selector returns a plain random choice when there is no
recent-use memory or no signature table; otherwise it returns the sampled
candidate at the first index achieving the maximal mean-dissimilarity
score, and in the spec's A/B scenario — candidate `a` with cosine
similarity 0 and candidate `b` with similarity 1 to every signed
recently-used clip, both sampled — it returns `a`. -/
theorem select_dissimilar_clip_spec (sqrtFn : ℚ → ℚ) (randChoice : List ℕ → ℕ)
    (randSample : List ℕ → ℕ → List ℕ)
    (avail recents : List ℕ) (vs : List (ℕ × List ℚ)) (top_n : ℕ) :
    (recents.isEmpty ∨ vs.isEmpty →
      select_dissimilar_clip sqrtFn randChoice randSample avail recents vs top_n
        = randChoice avail)
    ∧ (¬ recents.isEmpty → ¬ vs.isEmpty →
        sampledCandidates randSample avail top_n ≠ [] →
        (candScores sqrtFn randSample avail recents vs top_n).indexOf
            (pyMax (candScores sqrtFn randSample avail recents vs top_n))
          < (sampledCandidates randSample avail top_n).length
        ∧ select_dissimilar_clip sqrtFn randChoice randSample avail recents vs top_n
            = (sampledCandidates randSample avail top_n).getD
                ((candScores sqrtFn randSample avail recents vs top_n).indexOf
                  (pyMax (candScores sqrtFn randSample avail recents vs top_n))) 0
        ∧ (candScores sqrtFn randSample avail recents vs top_n).getD
              ((candScores sqrtFn randSample avail recents vs top_n).indexOf
                (pyMax (candScores sqrtFn randSample avail recents vs top_n))) 0
            = pyMax (candScores sqrtFn randSample avail recents vs top_n)
        ∧ (∀ x ∈ candScores sqrtFn randSample avail recents vs top_n,
            x ≤ pyMax (candScores sqrtFn randSample avail recents vs top_n))
        ∧ ∀ k, k < (candScores sqrtFn randSample avail recents vs top_n).indexOf
              (pyMax (candScores sqrtFn randSample avail recents vs top_n)) →
            (candScores sqrtFn randSample avail recents vs top_n).getD k 0
              ≠ pyMax (candScores sqrtFn randSample avail recents vs top_n))
    ∧ (∀ a b asig bsig, ¬ recents.isEmpty → ¬ vs.isEmpty →
        randSample avail (min top_n avail.length) = [b, a] →
        sigLookup vs a = some asig → sigLookup vs b = some bsig →
        (∀ u ∈ recents, ∀ usig, sigLookup vs u = some usig →
          calculate_similarity sqrtFn asig usig = 0
          ∧ calculate_similarity sqrtFn bsig usig = 1) →
        (∃ u ∈ recents, (sigLookup vs u).isSome) →
        select_dissimilar_clip sqrtFn randChoice randSample avail recents vs top_n
          = a) := by
  refine ⟨?_, ?_, ?_⟩
  · intro h
    unfold select_dissimilar_clip
    rw [if_pos h]
  · intro h1 h2 hC
    have hSC : candScores sqrtFn randSample avail recents vs top_n
        = (sampledCandidates randSample avail top_n).map (scoreOf sqrtFn recents vs) :=
      rfl
    have hSne : candScores sqrtFn randSample avail recents vs top_n ≠ [] := by
      rw [hSC]
      exact fun h => hC (List.map_eq_nil.mp h)
    have hmax : pyMax (candScores sqrtFn randSample avail recents vs top_n)
        ∈ candScores sqrtFn randSample avail recents vs top_n := pyMax_mem _ hSne
    have hidx :
        (candScores sqrtFn randSample avail recents vs top_n).indexOf
            (pyMax (candScores sqrtFn randSample avail recents vs top_n))
          < (candScores sqrtFn randSample avail recents vs top_n).length :=
      List.indexOf_lt_length.mpr hmax
    have hlen : (candScores sqrtFn randSample avail recents vs top_n).length
        = (sampledCandidates randSample avail top_n).length := by
      rw [hSC]
      exact List.length_map _ _
    refine ⟨hlen ▸ hidx, ?_, ?_, le_pyMax _, ?_⟩
    · unfold select_dissimilar_clip
      rw [if_neg fun h => h.elim h1 h2]
      dsimp only
      rw [← hSC, if_pos fun h => hSne (List.isEmpty_iff.mp h)]
    · rw [List.getD_eq_get _ _ hidx]
      exact List.indexOf_get hidx
    · intro k hk
      have hkl : k < (candScores sqrtFn randSample avail recents vs top_n).length :=
        lt_trans hk hidx
      rw [List.getD_eq_get _ _ hkl]
      exact get_ne_of_lt_indexOf _ _ k hkl hk
  · intro a b asig bsig h1 h2 hsample ha hb hsim hex
    obtain ⟨u0, hu0, husome⟩ := hex
    obtain ⟨usig0, husig0⟩ := Option.isSome_iff_exists.mp husome
    have hscoreb : scoreOf sqrtFn recents vs b = 0 := by
      simp only [scoreOf, hb]
      have hall : ∀ x ∈ recents.filterMap fun used =>
          (sigLookup vs used).map fun usig =>
            1 - calculate_similarity sqrtFn bsig usig, x = 0 := by
        intro x hx
        obtain ⟨u, hu, hfu⟩ := List.mem_filterMap.mp hx
        obtain ⟨usig, husig, hval⟩ := Option.map_eq_some'.mp hfu
        rw [← hval, (hsim u hu usig husig).2]
        norm_num
      rw [List.sum_eq_zero hall]
      split
      · exact zero_div _
      · rfl
    have hscorea : scoreOf sqrtFn recents vs a = 1 := by
      simp only [scoreOf, ha]
      have hall : ∀ x ∈ recents.filterMap fun used =>
          (sigLookup vs used).map fun usig =>
            1 - calculate_similarity sqrtFn asig usig, x = 1 := by
        intro x hx
        obtain ⟨u, hu, hfu⟩ := List.mem_filterMap.mp hx
        obtain ⟨usig, husig, hval⟩ := Option.map_eq_some'.mp hfu
        rw [← hval, (hsim u hu usig husig).1]
        norm_num
      have hmem0 : (1 - calculate_similarity sqrtFn asig usig0)
          ∈ recents.filterMap fun used =>
            (sigLookup vs used).map fun usig =>
              1 - calculate_similarity sqrtFn asig usig :=
        List.mem_filterMap.mpr ⟨u0, hu0, by rw [husig0]; rfl⟩
      have hlen0 : 0 < (recents.filterMap fun used =>
          (sigLookup vs used).map fun usig =>
            1 - calculate_similarity sqrtFn asig usig).length :=
        List.length_pos.mpr (List.ne_nil_of_mem hmem0)
      rw [if_pos hlen0, list_sum_const _ 1 hall, one_mul]
      exact div_self (ne_of_gt (by exact_mod_cast hlen0))
    have hsC : sampledCandidates randSample avail top_n = [b, a] := hsample
    have hS : (sampledCandidates randSample avail top_n).map
        (scoreOf sqrtFn recents vs) = ([0, 1] : List ℚ) := by
      rw [hsC]
      simp [hscoreb, hscorea]
    unfold select_dissimilar_clip
    rw [if_neg fun h => h.elim h1 h2]
    dsimp only
    rw [hS, hsC]
    norm_num [pyMax, List.indexOf_cons_ne, List.indexOf_cons_eq, List.getD]

/-! ### Error behaviour of the batch driver (claims C8, C9, C10) -/

lemma filterMap_of_mapM_eq_some (load : String → Option ℚ) :
    ∀ (paths : List String) (clips : List ℚ),
      paths.mapM load = some clips → paths.filterMap load = clips := by
  intro paths
  induction paths with
  | nil =>
      intro clips h
      rw [List.mapM_nil, Option.pure_def, Option.some.injEq] at h
      rw [List.filterMap_nil, h]
  | cons p t ih =>
      intro clips h
      rw [List.mapM_cons] at h
      cases hp : load p with
      | none => rw [hp] at h; simp at h
      | some d =>
          rw [hp] at h
          cases ht : t.mapM load with
          | none => rw [ht] at h; simp at h
          | some ds =>
              rw [ht] at h
              simp at h
              rw [List.filterMap_cons_some hp, ih ds ht, h]

/-- The two load attempts of lines 69-86 amount to keeping exactly the
loadable clips, in order. -/
lemma loadClips_eq_filterMap (load : String → Option ℚ) (paths : List String) :
    loadClips load paths = paths.filterMap load := by
  unfold loadClips
  cases h : paths.mapM load with
  | none => rfl
  | some clips => exact (filterMap_of_mapM_eq_some load paths clips h).symm

/-- The only exception the per-output loop can propagate is one raised by
the progress sink: every per-output failure is absorbed (the output is
merely skipped). -/
lemma runOutputs_error_is_sink (clips : List ℚ) (sigs : List (ℕ × List ℚ))
    (sqrtFn : ℚ → ℚ) (drawsFor : ℕ → Draws) (renderOk : ℕ → Bool) (fuel : ℕ)
    (pg sr : Bool) :
    ∀ (idxs : List ℕ) (gh : Hist) (paths : List String) (e : BatchErr),
      runOutputs clips sigs sqrtFn drawsFor renderOk fuel pg sr idxs gh paths
        = some (Except.error e) → e = BatchErr.sink := by
  intro idxs
  induction idxs with
  | nil =>
      intro gh paths e h
      unfold runOutputs at h
      split at h
      · simp only [Option.some.injEq, Except.error.injEq] at h
        exact h.symm
      · simp at h
  | cons i rest ih =>
      intro gh paths e h
      unfold runOutputs at h
      split at h
      · simp only [Option.some.injEq, Except.error.injEq] at h
        exact h.symm
      · split at h
        · exact absurd h (by simp)
        · split at h
          · exact ih _ _ _ h
          · split at h
            · exact ih _ _ _ h
            · exact ih _ _ _ h

/-- C8: on runs where the progress sink does not raise, `generate_batch`
fails with an input error — before any output is attempted — exactly when
the input list is empty or none of the inputs can be loaded; otherwise the
batch proceeds on exactly the loadable clips. -/
theorem input_error_iff (load : String → Option ℚ) (input_videos : List String)
    (num_videos : ℕ) (sigs : List (ℕ × List ℚ)) (sqrtFn : ℚ → ℚ)
    (drawsFor : ℕ → Draws) (renderOk : ℕ → Bool) (fuel : ℕ)
    (progressGiven sinkRaises : Bool)
    (hs : progressGiven = false ∨ sinkRaises = false) :
    ((∃ msg, generate_batch load input_videos num_videos sigs sqrtFn drawsFor renderOk
        fuel progressGiven sinkRaises = some (Except.error (BatchErr.input msg)))
      ↔ input_videos = [] ∨ input_videos.filterMap load = [])
    ∧ (input_videos ≠ [] → input_videos.filterMap load ≠ [] →
        generate_batch load input_videos num_videos sigs sqrtFn drawsFor renderOk fuel
          progressGiven sinkRaises
        = runOutputs (input_videos.filterMap load)
            (if 1 < (input_videos.filterMap load).length then sigs else [])
            sqrtFn drawsFor renderOk fuel progressGiven sinkRaises
            (List.range num_videos) [] []) := by
  have hns : ¬ (progressGiven = true ∧ sinkRaises = true) := by
    rcases hs with h | h <;> simp [h]
  constructor
  · constructor
    · rintro ⟨msg, hm⟩
      by_cases he : input_videos.isEmpty
      · exact Or.inl (List.isEmpty_iff.mp he)
      · right
        by_contra hne
        unfold generate_batch at hm
        rw [if_neg he, if_neg hns] at hm
        simp only [loadClips_eq_filterMap] at hm
        rw [if_neg fun h => hne (List.isEmpty_iff.mp h)] at hm
        exact BatchErr.noConfusion (runOutputs_error_is_sink _ _ _ _ _ _ _ _ _ _ _ _ hm)
    · rintro (h | h)
      · refine ⟨"No input videos provided", ?_⟩
        rw [h]
        rfl
      · by_cases he : input_videos = []
        · exact ⟨"No input videos provided", by rw [he]; rfl⟩
        · refine ⟨"No valid input videos could be loaded", ?_⟩
          unfold generate_batch
          rw [if_neg fun hh => he (List.isEmpty_iff.mp hh), if_neg hns]
          simp only [loadClips_eq_filterMap]
          rw [if_pos (List.isEmpty_iff.mpr h)]
  · intro h1 h2
    unfold generate_batch
    rw [if_neg fun hh => h1 (List.isEmpty_iff.mp hh), if_neg hns]
    simp only [loadClips_eq_filterMap]
    rw [if_neg fun hh => h2 (List.isEmpty_iff.mp hh)]

/-- C9 (amended): the only failures `generate_batch` can propagate are the
two input `ValueError`s and an exception raised by the progress sink; in
particular no `FatalBatchError` is ever raised — the code has no such
exception, and a batch that produced zero outputs returns the empty list. -/
theorem generate_batch_error_classification (load : String → Option ℚ)
    (input_videos : List String) (num_videos : ℕ) (sigs : List (ℕ × List ℚ))
    (sqrtFn : ℚ → ℚ) (drawsFor : ℕ → Draws) (renderOk : ℕ → Bool) (fuel : ℕ)
    (progressGiven sinkRaises : Bool) (e : BatchErr)
    (h : generate_batch load input_videos num_videos sigs sqrtFn drawsFor renderOk
        fuel progressGiven sinkRaises = some (Except.error e)) :
    ((∃ msg, e = BatchErr.input msg) ∨ e = BatchErr.sink)
    ∧ e ≠ BatchErr.fatal := by
  have hcl : (∃ msg, e = BatchErr.input msg) ∨ e = BatchErr.sink := by
    unfold generate_batch at h
    split at h
    · simp only [Option.some.injEq, Except.error.injEq] at h
      exact Or.inl ⟨_, h.symm⟩
    · split at h
      · simp only [Option.some.injEq, Except.error.injEq] at h
        exact Or.inr h.symm
      · dsimp only at h
        split at h
        · simp only [Option.some.injEq, Except.error.injEq] at h
          exact Or.inl ⟨_, h.symm⟩
        · exact Or.inr (runOutputs_error_is_sink _ _ _ _ _ _ _ _ _ _ _ _ h)
  refine ⟨hcl, ?_⟩
  rcases hcl with ⟨msg, he⟩ | he <;> rw [he] <;> exact fun hh => BatchErr.noConfusion hh

/-- C10 (amended): the progress sink is NOT shielded: `generate_batch` calls
it outside any `try`, so on every run with a supplied, raising sink and a
non-empty input list the sink's exception aborts the batch at the very first
checkpoint, and the worker's own `try/except` then marks the job `error`. -/
theorem sink_exception_aborts_batch (load : String → Option ℚ)
    (input_videos : List String) (num_videos : ℕ) (sigs : List (ℕ × List ℚ))
    (sqrtFn : ℚ → ℚ) (drawsFor : ℕ → Draws) (renderOk : ℕ → Bool) (fuel : ℕ)
    (hiv : input_videos ≠ []) :
    generate_batch load input_videos num_videos sigs sqrtFn drawsFor renderOk fuel
      true true = some (Except.error BatchErr.sink)
    ∧ process_job (generate_batch load input_videos num_videos sigs sqrtFn drawsFor
        renderOk fuel true true) = some JobStatus.jobError := by
  have h1 : generate_batch load input_videos num_videos sigs sqrtFn drawsFor renderOk
      fuel true true = some (Except.error BatchErr.sink) := by
    unfold generate_batch
    rw [if_neg fun hh => hiv (List.isEmpty_iff.mp hh), if_pos ⟨rfl, rfl⟩]
  exact ⟨h1, by rw [h1]; rfl⟩

/-! ### History bookkeeping invariants (claim C5) -/

lemma histGet_histAppend_self : ∀ (h : Hist) (c : ℕ) (seg : Interval),
    histGet (histAppend h c seg) c = histGet h c ++ [seg] := by
  intro h
  induction h with
  | nil =>
      intro c seg
      simp [histAppend, histGet]
  | cons kv t ih =>
      intro c seg
      obtain ⟨k, v⟩ := kv
      by_cases hkc : k = c
      · subst hkc
        simp [histAppend, histGet]
      · simp [histAppend, histGet, hkc, ih]

lemma histGet_histAppend_ne : ∀ (h : Hist) {c c' : ℕ} (seg : Interval), c' ≠ c →
    histGet (histAppend h c seg) c' = histGet h c' := by
  intro h
  induction h with
  | nil =>
      intro c c' seg hne
      have hcc : ¬ c = c' := fun hh => hne hh.symm
      simp [histAppend, histGet, hcc]
  | cons kv t ih =>
      intro c c' seg hne
      obtain ⟨k, v⟩ := kv
      by_cases hkc : k = c
      · subst hkc
        have hkcs : ¬ k = c' := fun hh => hne hh.symm
        simp [histAppend, histGet, hkcs]
      · by_cases hkc' : k = c'
        · have hcc : ¬ c' = c := hne
          simp [histAppend, histGet, hkc, hkc', hcc]
        · simp [histAppend, histGet, hkc, hkc', ih seg hne]

lemma mem_histGet_histAppend {x : Interval} (h : Hist) (c c' : ℕ) (seg : Interval)
    (hx : x ∈ histGet h c') : x ∈ histGet (histAppend h c seg) c' := by
  by_cases hc : c' = c
  · subst hc
    rw [histGet_histAppend_self]
    exact List.mem_append_left _ hx
  · rw [histGet_histAppend_ne h seg hc]
    exact hx

lemma self_mem_histGet_histAppend (h : Hist) (c : ℕ) (seg : Interval) :
    seg ∈ histGet (histAppend h c seg) c := by
  rw [histGet_histAppend_self]
  simp

lemma prefix_histGet_histAppend (h : Hist) (c c' : ℕ) (seg : Interval) :
    histGet h c' <+: histGet (histAppend h c seg) c' := by
  by_cases hc : c' = c
  · subst hc
    rw [histGet_histAppend_self]
    exact List.prefix_append _ _
  · rw [histGet_histAppend_ne h seg hc]

/-- Invariant of the main loop: every planned segment's interval is
recorded in both histories, and the batch-global history is only ever
appended to. -/
def HistInv (gh0 : Hist) (st : PlanState) : Prop :=
  (∀ s ∈ st.plan, (s.2.1, s.2.1 + s.2.2) ∈ histGet st.gHist s.1)
  ∧ (∀ s ∈ st.plan, (s.2.1, s.2.1 + s.2.2) ∈ histGet st.lHist s.1)
  ∧ (∀ c, histGet gh0 c <+: histGet st.gHist c)

lemma mainRound_histInv (ctx : PlanCtx) (j : ℕ) (st : PlanState) {gh0 : Hist}
    (h : HistInv gh0 st) : HistInv gh0 (mainRound ctx j st) := by
  rcases mainRound_cases ctx j st with
    ⟨hp, _, _, hgh, hlh⟩ | ⟨c, s, dur, _, _, hp, _, _, hgh, hlh⟩ |
    ⟨c, s, dur, hp, _, _, hgh, hlh⟩
  · exact ⟨by rw [hp, hgh]; exact h.1, by rw [hp, hlh]; exact h.2.1,
      fun c => by rw [hgh]; exact h.2.2 c⟩
  · refine ⟨?_, ?_, ?_⟩
    · rw [hp, hgh]
      intro x hx
      rcases List.mem_append.mp hx with hx | hx
      · exact mem_histGet_histAppend _ _ _ _ (h.1 x hx)
      · have hxe : x = (c, s, dur) := by simpa using hx
        subst hxe
        exact self_mem_histGet_histAppend _ _ _
    · rw [hp, hlh]
      intro x hx
      rcases List.mem_append.mp hx with hx | hx
      · exact mem_histGet_histAppend _ _ _ _ (h.2.1 x hx)
      · have hxe : x = (c, s, dur) := by simpa using hx
        subst hxe
        exact self_mem_histGet_histAppend _ _ _
    · intro c'
      rw [hgh]
      exact (h.2.2 c').trans (prefix_histGet_histAppend _ _ _ _)
  · refine ⟨?_, ?_, ?_⟩
    · rw [hp, hgh]
      intro x hx
      exact mem_histGet_histAppend _ _ _ _ (h.1 x hx)
    · rw [hp, hlh]
      intro x hx
      exact mem_histGet_histAppend _ _ _ _ (h.2.1 x hx)
    · intro c'
      rw [hgh]
      exact (h.2.2 c').trans (prefix_histGet_histAppend _ _ _ _)

lemma mainPhase_histInv (ctx : PlanCtx) (gh0 : Hist) :
    HistInv gh0 (mainPhase ctx gh0) := by
  unfold mainPhase
  have hinit : HistInv gh0 (⟨gh0, [], [], 0, [], false⟩ : PlanState) :=
    ⟨by simp, by simp, fun c => List.prefix_rfl⟩
  generalize (⟨gh0, [], [], 0, [], false⟩ : PlanState) = st at hinit ⊢
  generalize List.range (numClipsOf ctx) = l
  induction l generalizing st with
  | nil => exact hinit
  | cons j t ih =>
      rw [List.foldl_cons]
      exact ih _ (mainRound_histInv ctx j st hinit)

/-- What the shortfall loop does to plan and histories: planned segments
stay recorded in the (appended-to) global history, and the local history
is never touched. -/
lemma shortfallLoop_histInv (ctx : PlanCtx) :
    ∀ (fuel k : ℕ) (st st' : PlanState),
      shortfallLoop ctx fuel k st = some st' →
      (∀ s ∈ st.plan, (s.2.1, s.2.1 + s.2.2) ∈ histGet st.gHist s.1) →
      (∀ s ∈ st'.plan, (s.2.1, s.2.1 + s.2.2) ∈ histGet st'.gHist s.1)
      ∧ (∀ c, histGet st.gHist c <+: histGet st'.gHist c)
      ∧ st'.lHist = st.lHist
      ∧ st.plan <+: st'.plan := by
  intro fuel
  induction fuel with
  | zero =>
      intro k st st' hrun hmem
      unfold shortfallLoop at hrun
      split at hrun
      · exact absurd hrun (by simp)
      · cases hrun
        exact ⟨hmem, fun c => List.prefix_rfl, rfl, List.prefix_rfl⟩
  | succ n ih =>
      intro k st st' hrun hmem
      unfold shortfallLoop at hrun
      split at hrun
      · dsimp only at hrun
        split at hrun
        · exact ih (k + 1) st st' hrun hmem
        · split at hrun
          · cases hrun
            exact ⟨hmem, fun c => List.prefix_rfl, rfl, List.prefix_rfl⟩
          · obtain ⟨h1, h2, h3, h4⟩ := ih (k + 1) _ st' hrun (by
              intro x hx
              rcases List.mem_append.mp hx with hx | hx
              · exact mem_histGet_histAppend _ _ _ _ (hmem x hx)
              · rw [List.mem_singleton] at hx
                subst hx
                exact self_mem_histGet_histAppend _ _ _)
            refine ⟨h1, ?_, h3, ?_⟩
            · intro c
              exact (prefix_histGet_histAppend _ _ _ _).trans (h2 c)
            · exact (List.prefix_append _ _).trans h4
      · cases hrun
        exact ⟨hmem, fun c => List.prefix_rfl, rfl, List.prefix_rfl⟩

/-- The loop-extension stage only rewrites the recorded total; plan and
histories pass through unchanged. -/
lemma loopExtend_fields (st st' : PlanState) (ext : Bool)
    (h : loopExtend st = (st', ext)) :
    st'.plan = st.plan ∧ st'.gHist = st.gHist ∧ st'.lHist = st.lHist := by
  unfold loopExtend at h
  split at h <;> (injection h with h1 h2; subst h1; exact ⟨rfl, rfl, rfl⟩)

/-- C5 (amended): the histories are append-only, but the two stores are
not kept in step: on any completed plan, every planned segment's interval
is recorded in the batch-global history and the global history only ever
grows, while the per-output (local) history receives exactly the segments
of the initial eight rounds — the shortfall-filling pass appends the extra
segments to the global history only and leaves the local history untouched. -/
theorem histories_append_only
    (ctx : PlanCtx) (gh0 : Hist) (fuel : ℕ) (st : PlanState) (ext : Bool)
    (hrun : planOutput ctx gh0 fuel = some (st, ext)) :
    (∀ s ∈ st.plan, (s.2.1, s.2.1 + s.2.2) ∈ histGet st.gHist s.1)
    ∧ (∀ c, histGet gh0 c <+: histGet st.gHist c)
    ∧ st.lHist = (mainPhase ctx gh0).lHist
    ∧ (∀ s ∈ (mainPhase ctx gh0).plan,
        (s.2.1, s.2.1 + s.2.2) ∈ histGet st.lHist s.1)
    ∧ (mainPhase ctx gh0).plan <+: st.plan := by
  unfold planOutput at hrun
  obtain ⟨st1, hloop, hext⟩ := Option.map_eq_some'.mp hrun
  obtain ⟨hp, hg, hl⟩ := loopExtend_fields st1 st ext hext
  have hmp := mainPhase_histInv ctx gh0
  obtain ⟨hmem, hpre, hlh, hplanpre⟩ :=
    shortfallLoop_histInv ctx fuel 0 (mainPhase ctx gh0) st1 hloop hmp.1
  refine ⟨?_, ?_, ?_, ?_, ?_⟩
  · rw [hp, hg]
    exact hmem
  · intro c
    rw [hg]
    exact (hmp.2.2 c).trans (hpre c)
  · rw [hl]
    exact hlh
  · intro s hs
    rw [hl, hlh]
    exact hmp.2.1 s hs
  · rw [hp]
    exact hplanpre

/-- If the shortfall guard holds and every iteration's
`find_available_segments` query is empty, the shortfall loop never
terminates: its body changes nothing, so the guard holds forever. -/
lemma shortfallLoop_stuck (ctx : PlanCtx) (st : PlanState)
    (htot : st.total < 16) (hlen : st.plan.length < 24)
    (hseg : ∀ k,
      (find_available_segments
        (choiceList (ctx.draws.sClipChoiceR k) (List.range ctx.clips.length))
        (max (minDurOf ctx) (min (maxDurOf ctx) (16 - st.total)))
        (ctx.clips.getD
          (choiceList (ctx.draws.sClipChoiceR k) (List.range ctx.clips.length)) 0)
        (histGet st.gHist
          (choiceList (ctx.draws.sClipChoiceR k) (List.range ctx.clips.length)))
        (histGet st.lHist
          (choiceList (ctx.draws.sClipChoiceR k) (List.range ctx.clips.length)))
        (1 / 2) (1 / 10)).isEmpty = true) :
    ∀ fuel k, shortfallLoop ctx fuel k st = none := by
  intro fuel
  induction fuel with
  | zero =>
      intro k
      simp [shortfallLoop, htot, hlen]
  | succ n ih =>
      intro k
      simp only [shortfallLoop]
      rw [if_pos (show st.total < 16 ∧ st.plan.length < 24 from ⟨htot, hlen⟩),
        if_pos (hseg k)]
      exact ih (k + 1)

set_option maxHeartbeats 1000000 in
/-- Evaluation of the main loop on the 4-second clip: round 0 uses
`(0, 2)`, every later round finds no room and is silently skipped. -/
lemma c4_mainPhase :
    mainPhase c4Ctx [] =
      ⟨[(0, [(0, 2)])], [(0, [(0, 2)])], [(0, 0, 2)], 2, [], false⟩ := by
  norm_num [mainPhase, mainRound, roundAvailable, roundClipIndex, roundMemory, roundDuration, roundSegs, roundStart, numClipsOf, minDurOf, maxDurOf, avgOf, memSizeOf,
    choiceList, choiceSeg, uniformDraw, histGet, histAppend, c4Ctx, c4Draws,
    find_available_segments, mergedIntervals, sortedByStart, bufferInterval, mergeStep,
    List.insertionSort, List.orderedInsert, List.getLastI, List.headI, List.filterMap,
    List.range_succ, List.lookup]

/-- C4: the claim says the per-output segment-acquisition loop always
terminates under a bounded retry cap.  It does not: with a single 4-second
input clip and the draws `c4Draws` (all of whose `uniform` parameters lie
in `[0, 1]`), the main loop acquires one 2-second segment and then, with
total 2 s < 16 s and fewer than 24 segments, the shortfall `while` loop
finds no available window, adds nothing, and repeats its guard forever:
`planOutput` returns `none` for every fuel bound. -/
theorem planOutput_diverges_on_small_clip :
    ∀ fuel, planOutput c4Ctx [] fuel = none := by
  intro fuel
  unfold planOutput
  rw [c4_mainPhase]
  rw [shortfallLoop_stuck c4Ctx _ (by norm_num) (by norm_num) ?_ fuel 0]
  · rfl
  · intro k
    norm_num [choiceList, c4Ctx, c4Draws, numClipsOf, minDurOf, maxDurOf, avgOf,
      histGet, find_available_segments, mergedIntervals, sortedByStart,
      bufferInterval, mergeStep, List.insertionSort, List.orderedInsert,
      List.getLastI, List.headI, List.filterMap, List.range_succ]

/-- `c2Ctx` round 0. -/
lemma c2r0 : mainRound c2Ctx 0 ⟨[], [], [], 0, [], false⟩ = c2s1 := by
  norm_num [mainRound, roundAvailable, roundClipIndex, roundMemory, roundDuration, roundSegs, roundStart, c2Ctx, c2Draws, c2s1, numClipsOf, minDurOf, maxDurOf, avgOf,
    memSizeOf, choiceList, choiceSeg, uniformDraw, histGet, histAppend,
    find_available_segments, mergedIntervals, sortedByStart, bufferInterval, mergeStep,
    List.insertionSort, List.orderedInsert, List.getLastI, List.headI, List.filterMap,
    List.range_succ, List.erase_cons]

/-- `c2Ctx` round 1. -/
lemma c2r1 : mainRound c2Ctx 1 c2s1 = c2s2 := by
  norm_num [mainRound, roundAvailable, roundClipIndex, roundMemory, roundDuration, roundSegs, roundStart, c2Ctx, c2Draws, c2s1, c2s2, numClipsOf, minDurOf, maxDurOf, avgOf,
    memSizeOf, choiceList, choiceSeg, uniformDraw, histGet, histAppend,
    find_available_segments, mergedIntervals, sortedByStart, bufferInterval, mergeStep,
    List.insertionSort, List.orderedInsert, List.getLastI, List.headI, List.filterMap,
    List.range_succ, List.erase_cons]

/-- `c2Ctx` round 2. -/
lemma c2r2 : mainRound c2Ctx 2 c2s2 = c2s3 := by
  norm_num [mainRound, roundAvailable, roundClipIndex, roundMemory, roundDuration, roundSegs, roundStart, c2Ctx, c2Draws, c2s2, c2s3, numClipsOf, minDurOf, maxDurOf, avgOf,
    memSizeOf, choiceList, choiceSeg, uniformDraw, histGet, histAppend,
    find_available_segments, mergedIntervals, sortedByStart, bufferInterval, mergeStep,
    List.insertionSort, List.orderedInsert, List.getLastI, List.headI, List.filterMap,
    List.range_succ, List.erase_cons]

/-- `c2Ctx` round 3. -/
lemma c2r3 : mainRound c2Ctx 3 c2s3 = c2s4 := by
  norm_num [mainRound, roundAvailable, roundClipIndex, roundMemory, roundDuration, roundSegs, roundStart, c2Ctx, c2Draws, c2s3, c2s4, numClipsOf, minDurOf, maxDurOf, avgOf,
    memSizeOf, choiceList, choiceSeg, uniformDraw, histGet, histAppend,
    find_available_segments, mergedIntervals, sortedByStart, bufferInterval, mergeStep,
    List.insertionSort, List.orderedInsert, List.getLastI, List.headI, List.filterMap,
    List.range_succ, List.erase_cons]

/-- `c2Ctx` round 4: the interior gap pair `(2.1, 2.9)` is drawn for clip 0
and `random.uniform(2.1, 0.9)` — a reversed range, because the pair's end
already had the duration subtracted once — returns `0.9`. -/
lemma c2r4 : mainRound c2Ctx 4 c2s4 = c2s5 := by
  norm_num [mainRound, roundAvailable, roundClipIndex, roundMemory, roundDuration, roundSegs, roundStart, c2Ctx, c2Draws, c2s4, c2s5, numClipsOf, minDurOf, maxDurOf, avgOf,
    memSizeOf, choiceList, choiceSeg, uniformDraw, histGet, histAppend,
    find_available_segments, mergedIntervals, sortedByStart, bufferInterval, mergeStep,
    List.insertionSort, List.orderedInsert, List.getLastI, List.headI, List.filterMap,
    List.range_succ, List.erase_cons]

/-- `c2Ctx` round 5. -/
lemma c2r5 : mainRound c2Ctx 5 c2s5 = c2s6 := by
  norm_num [mainRound, roundAvailable, roundClipIndex, roundMemory, roundDuration, roundSegs, roundStart, c2Ctx, c2Draws, c2s5, c2s6, numClipsOf, minDurOf, maxDurOf, avgOf,
    memSizeOf, choiceList, choiceSeg, uniformDraw, histGet, histAppend,
    find_available_segments, mergedIntervals, sortedByStart, bufferInterval, mergeStep,
    List.insertionSort, List.orderedInsert, List.getLastI, List.headI, List.filterMap,
    List.range_succ, List.erase_cons]

/-- `c2Ctx` round 6. -/
lemma c2r6 : mainRound c2Ctx 6 c2s6 = c2s7 := by
  norm_num [mainRound, roundAvailable, roundClipIndex, roundMemory, roundDuration, roundSegs, roundStart, c2Ctx, c2Draws, c2s6, c2s7, numClipsOf, minDurOf, maxDurOf, avgOf,
    memSizeOf, choiceList, choiceSeg, uniformDraw, histGet, histAppend,
    find_available_segments, mergedIntervals, sortedByStart, bufferInterval, mergeStep,
    List.insertionSort, List.orderedInsert, List.getLastI, List.headI, List.filterMap,
    List.range_succ, List.erase_cons]

/-- `c2Ctx` round 7: final round, total reaches 16 and the loop breaks. -/
lemma c2r7 : mainRound c2Ctx 7 c2s7 = c2s8 := by
  norm_num [mainRound, roundAvailable, roundClipIndex, roundMemory, roundDuration, roundSegs, roundStart, c2Ctx, c2Draws, c2s7, c2s8, numClipsOf, minDurOf, maxDurOf, avgOf,
    memSizeOf, choiceList, choiceSeg, uniformDraw, histGet, histAppend,
    find_available_segments, mergedIntervals, sortedByStart, bufferInterval, mergeStep,
    List.insertionSort, List.orderedInsert, List.getLastI, List.headI, List.filterMap,
    List.range_succ, List.erase_cons]

/-- Evaluation of the whole main loop of the `c2Ctx` run. -/
lemma c2_mainPhase : mainPhase c2Ctx [] = c2s8 := by
  have h : numClipsOf c2Ctx = 8 := by norm_num [numClipsOf, c2Ctx, c2Draws]
  unfold mainPhase
  rw [h, show List.range 8 = [0, 1, 2, 3, 4, 5, 6, 7] from rfl]
  simp only [List.foldl_cons, List.foldl_nil]
  rw [c2r0, c2r1, c2r2, c2r3, c2r4, c2r5, c2r6, c2r7]

/-- The `c2Ctx` run completes (total 16 s, no shortfall, no extension). -/
lemma c2_planOutput : planOutput c2Ctx [] 1 = some (c2s8, false) := by
  unfold planOutput
  rw [c2_mainPhase]
  norm_num [shortfallLoop, loopExtend, c2s8]

/-- C2: the claim is violated: in the completed batch output planned by
`c2Ctx`/`c2Draws` (a genuine run: every uniform-draw parameter lies in
`[0, 1]`), the plan's first and fifth segments both come from clip 0
within the same output and overlap — even after expanding the first by the
0.1 s buffer.  The cause: interior and trailing pairs returned by
`find_available_segments` already have `desired_duration` subtracted from
their ends, and the caller subtracts it again, so when an interior gap is
shorter than twice the duration the reversed `random.uniform` range lets
the start land before the gap. -/
theorem same_clip_segments_overlap_in_one_output :
    planOf (planOutput c2Ctx [] 1) =
      [(0, 0, 2), (1, 0, 2), (0, 5, 2), (1, 21/10, 2), (0, 9/10, 2),
       (1, 21/5, 2), (0, 71/10, 2), (1, 63/10, 2)]
    ∧ extendedOf (planOutput c2Ctx [] 1) = false
    ∧ overlapI (9/10, 9/10 + 2) (bufferInterval 12 (1/10) (0, 0 + 2))
    ∧ overlapI (9/10, 9/10 + 2) (0, 0 + 2) := by
  rw [planOf, extendedOf, c2_planOutput]
  refine ⟨by norm_num [c2s8], by norm_num [c2s8], ?_, ?_⟩ <;>
    norm_num [overlapI, bufferInterval]

/-- `c3Ctx` round 0. -/
lemma c3r0 : mainRound c3Ctx 0 ⟨[], [], [], 0, [], false⟩ = c3s1 := by
  norm_num [mainRound, roundAvailable, roundClipIndex, roundMemory, roundDuration, roundSegs, roundStart, c3Ctx, c3Draws, c3s1, numClipsOf, minDurOf, maxDurOf, avgOf,
    memSizeOf, choiceList, choiceSeg, uniformDraw, histGet, histAppend,
    find_available_segments, mergedIntervals, sortedByStart, bufferInterval, mergeStep,
    List.insertionSort, List.orderedInsert, List.getLastI, List.headI, List.filterMap,
    List.range_succ, List.erase_cons]

/-- `c3Ctx` round 1. -/
lemma c3r1 : mainRound c3Ctx 1 c3s1 = c3s2 := by
  norm_num [mainRound, roundAvailable, roundClipIndex, roundMemory, roundDuration, roundSegs, roundStart, c3Ctx, c3Draws, c3s1, c3s2, numClipsOf, minDurOf, maxDurOf, avgOf,
    memSizeOf, choiceList, choiceSeg, uniformDraw, histGet, histAppend,
    find_available_segments, mergedIntervals, sortedByStart, bufferInterval, mergeStep,
    List.insertionSort, List.orderedInsert, List.getLastI, List.headI, List.filterMap,
    List.range_succ, List.erase_cons]

/-- `c3Ctx` round 2. -/
lemma c3r2 : mainRound c3Ctx 2 c3s2 = c3s3 := by
  norm_num [mainRound, roundAvailable, roundClipIndex, roundMemory, roundDuration, roundSegs, roundStart, c3Ctx, c3Draws, c3s2, c3s3, numClipsOf, minDurOf, maxDurOf, avgOf,
    memSizeOf, choiceList, choiceSeg, uniformDraw, histGet, histAppend,
    find_available_segments, mergedIntervals, sortedByStart, bufferInterval, mergeStep,
    List.insertionSort, List.orderedInsert, List.getLastI, List.headI, List.filterMap,
    List.range_succ, List.erase_cons]

/-- `c3Ctx` round 3. -/
lemma c3r3 : mainRound c3Ctx 3 c3s3 = c3s4 := by
  norm_num [mainRound, roundAvailable, roundClipIndex, roundMemory, roundDuration, roundSegs, roundStart, c3Ctx, c3Draws, c3s3, c3s4, numClipsOf, minDurOf, maxDurOf, avgOf,
    memSizeOf, choiceList, choiceSeg, uniformDraw, histGet, histAppend,
    find_available_segments, mergedIntervals, sortedByStart, bufferInterval, mergeStep,
    List.insertionSort, List.orderedInsert, List.getLastI, List.headI, List.filterMap,
    List.range_succ, List.erase_cons]

/-- `c3Ctx` round 4. -/
lemma c3r4 : mainRound c3Ctx 4 c3s4 = c3s5 := by
  norm_num [mainRound, roundAvailable, roundClipIndex, roundMemory, roundDuration, roundSegs, roundStart, c3Ctx, c3Draws, c3s4, c3s5, numClipsOf, minDurOf, maxDurOf, avgOf,
    memSizeOf, choiceList, choiceSeg, uniformDraw, histGet, histAppend,
    find_available_segments, mergedIntervals, sortedByStart, bufferInterval, mergeStep,
    List.insertionSort, List.orderedInsert, List.getLastI, List.headI, List.filterMap,
    List.range_succ, List.erase_cons]

/-- `c3Ctx` round 5. -/
lemma c3r5 : mainRound c3Ctx 5 c3s5 = c3s6 := by
  norm_num [mainRound, roundAvailable, roundClipIndex, roundMemory, roundDuration, roundSegs, roundStart, c3Ctx, c3Draws, c3s5, c3s6, numClipsOf, minDurOf, maxDurOf, avgOf,
    memSizeOf, choiceList, choiceSeg, uniformDraw, histGet, histAppend,
    find_available_segments, mergedIntervals, sortedByStart, bufferInterval, mergeStep,
    List.insertionSort, List.orderedInsert, List.getLastI, List.headI, List.filterMap,
    List.range_succ, List.erase_cons]

/-- `c3Ctx` round 6. -/
lemma c3r6 : mainRound c3Ctx 6 c3s6 = c3s7 := by
  norm_num [mainRound, roundAvailable, roundClipIndex, roundMemory, roundDuration, roundSegs, roundStart, c3Ctx, c3Draws, c3s6, c3s7, numClipsOf, minDurOf, maxDurOf, avgOf,
    memSizeOf, choiceList, choiceSeg, uniformDraw, histGet, histAppend,
    find_available_segments, mergedIntervals, sortedByStart, bufferInterval, mergeStep,
    List.insertionSort, List.orderedInsert, List.getLastI, List.headI, List.filterMap,
    List.range_succ, List.erase_cons]

/-- `c3Ctx` round 7: the forced final round (`clamp(2.7, 1.6, 2.4) = 2.4`),
leaving the total at 15.7 s without a break. -/
lemma c3r7 : mainRound c3Ctx 7 c3s7 = c3s8 := by
  norm_num [mainRound, roundAvailable, roundClipIndex, roundMemory, roundDuration, roundSegs, roundStart, c3Ctx, c3Draws, c3s7, c3s8, numClipsOf, minDurOf, maxDurOf, avgOf,
    memSizeOf, choiceList, choiceSeg, uniformDraw, histGet, histAppend,
    find_available_segments, mergedIntervals, sortedByStart, bufferInterval, mergeStep,
    List.insertionSort, List.orderedInsert, List.getLastI, List.headI, List.filterMap,
    List.range_succ, List.erase_cons]

/-- Evaluation of the whole main loop of the `c3Ctx` run: seven 1.9 s
rounds and a forced 2.4 s final round; 15.7 s < 16 s target. -/
lemma c3_mainPhase : mainPhase c3Ctx [] = c3s8 := by
  have h : numClipsOf c3Ctx = 8 := by norm_num [numClipsOf, c3Ctx, c3Draws]
  unfold mainPhase
  rw [h, show List.range 8 = [0, 1, 2, 3, 4, 5, 6, 7] from rfl]
  simp only [List.foldl_cons, List.foldl_nil]
  rw [c3r0, c3r1, c3r2, c3r3, c3r4, c3r5, c3r6, c3r7]

set_option maxHeartbeats 1000000 in
/-- The `c3Ctx` run: the shortfall pass adds `(8.5, 10.1)` of clip 1 —
recording it in the global history only — and the total reaches 17.3 s. -/
lemma c3_planOutput : planOutput c3Ctx [] 2 = some (c3s9, false) := by
  unfold planOutput
  rw [c3_mainPhase]
  norm_num [shortfallLoop, loopExtend, choiceList, choiceSeg, uniformDraw, histGet,
    histAppend, c3Ctx, c3Draws, c3s8, c3s9, numClipsOf, minDurOf, maxDurOf, avgOf,
    find_available_segments, mergedIntervals, sortedByStart, bufferInterval, mergeStep,
    List.insertionSort, List.orderedInsert, List.getLastI, List.headI, List.filterMap,
    List.range_succ, List.erase_cons]

/-- C3 counterexample: the completed plan of the `c3Ctx` run (another
genuine draw sequence) has segment durations summing to 17.3 s — outside
`16 ± 1` — and was not reconciled by loop-extension, because the shortfall
pass adds at least `min_clip_dur = 1.6` s however small the deficit is. -/
theorem plan_total_can_exceed_target_plus_one :
    planSum (planOf (planOutput c3Ctx [] 2)) = 173/10
    ∧ extendedOf (planOutput c3Ctx [] 2) = false
    ∧ (planOutput c3Ctx [] 2).isSome = true
    ∧ ¬((16 - 1 ≤ (173 : ℚ)/10) ∧ ((173 : ℚ)/10 ≤ 16 + 1)) := by
  rw [planOf, extendedOf, c3_planOutput]
  refine ⟨by norm_num [planSum, c3s9], by norm_num [c3s9], by norm_num, by norm_num⟩

/-- C5 counterexample: in the same `c3Ctx` run the shortfall-pass segment
`(8.5, 10.1)` of clip 1 is planned and appended to the global history but
never to the per-output local history (lines 289-293 update only
`clip_history`). -/
theorem shortfall_segment_missing_from_local_history :
    (1, (17 : ℚ)/2, (8 : ℚ)/5) ∈ planOf (planOutput c3Ctx [] 2)
    ∧ ((17 : ℚ)/2, (101 : ℚ)/10) ∈ histGet (gHistOf (planOutput c3Ctx [] 2)) 1
    ∧ ((17 : ℚ)/2, (101 : ℚ)/10) ∉ histGet (lHistOf (planOutput c3Ctx [] 2)) 1 := by
  rw [planOf, gHistOf, lHistOf, c3_planOutput]
  refine ⟨by norm_num [c3s9], ?_, ?_⟩ <;>
    norm_num [histGet, c3s9]

/-- Witness for the amended C3 theorem: the `c3Ctx` run (all duration
draws `3/8 ∈ [0, 1]`) completes unreconciled with sum 17.3 s. -/
theorem completed_plan_duration_bounds_witness :
    ((false : Bool) = true → c3s9.total = 16 ∧ planSum c3s9.plan < 16)
    ∧ ((false : Bool) = false →
        16 ≤ planSum c3s9.plan ∧ planSum c3s9.plan < 92/5 ∧ c3s9.total = planSum c3s9.plan)
    ∧ composedDuration (planSum c3s9.plan) ≤ 16 + 1
    ∧ (16 + 1 < planSum c3s9.plan → composedDuration (planSum c3s9.plan) = 16) :=
  completed_plan_duration_bounds c3Ctx [] 2 c3s9 false
    (fun j => ⟨by norm_num [c3Ctx, c3Draws], by norm_num [c3Ctx, c3Draws]⟩)
    c3_planOutput (List.cons_ne_nil _ _)

/-- Witness for the C7 theorem: a concrete A/B instance.  Candidate 1 has
signature `[4, -3]` (orthogonal to the recently-used signature `[3, 4]`,
cosine similarity 0) and candidate 2 has signature `[3, 4]` (similarity 1);
both are sampled, and the selector returns candidate 1. -/
theorem select_dissimilar_clip_spec_witness :
    select_dissimilar_clip (fun q => if q = 25 then 5 else 1) (fun _ => 0)
      (fun _ _ => [2, 1]) [1, 2, 5] [5]
      [(5, [3, 4]), (1, [4, -3]), (2, [3, 4])] 3 = 1 := by
  refine (select_dissimilar_clip_spec (fun q => if q = 25 then 5 else 1) (fun _ => 0)
      (fun _ _ => [2, 1]) [1, 2, 5] [5]
      [(5, [3, 4]), (1, [4, -3]), (2, [3, 4])] 3).2.2 1 2 [4, -3] [3, 4]
      (by simp) (by simp) rfl (by norm_num [sigLookup]) (by norm_num [sigLookup])
      ?_ ⟨5, by simp, by norm_num [sigLookup]⟩
  intro u hu usig husig
  have hu5 : u = 5 := by simpa using hu
  subst hu5
  rw [show sigLookup [(5, [3, 4]), (1, [4, -3]), (2, [3, 4])] 5 = some [3, 4]
    from by norm_num [sigLookup]] at husig
  injection husig with hsig
  rw [← hsig]
  constructor <;>
    norm_num [calculate_similarity, dotProduct, List.zip, List.zipWith]

/-- Witness for the C8 theorem: a single unopenable input.  Both sides of
the iff hold (the batch raises the load-phase `ValueError`), and the
proceed-conjunct's hypotheses are vacuously unsatisfied. -/
theorem input_error_iff_witness :
    ((∃ msg, generate_batch c9load ["z.mp4"] 1 [] (fun _ => 0) (fun _ => c2Draws)
        (fun _ => true) 1 false false = some (Except.error (BatchErr.input msg)))
      ↔ ["z.mp4"] = [] ∨ ["z.mp4"].filterMap c9load = [])
    ∧ (["z.mp4"] ≠ [] → ["z.mp4"].filterMap c9load ≠ [] →
        generate_batch c9load ["z.mp4"] 1 [] (fun _ => 0) (fun _ => c2Draws)
          (fun _ => true) 1 false false
        = runOutputs (["z.mp4"].filterMap c9load)
            (if 1 < (["z.mp4"].filterMap c9load).length then [] else [])
            (fun _ => 0) (fun _ => c2Draws) (fun _ => true) 1 false false
            (List.range 1) [] []) :=
  input_error_iff c9load ["z.mp4"] 1 [] (fun _ => 0) (fun _ => c2Draws)
    (fun _ => true) 1 false false (Or.inl rfl)

/-- C9 counterexample: a batch over the two loadable clips `a.mp4`/`b.mp4`
(the `c2Ctx` plan) in which every render attempt fails, so zero outputs are
producible — yet `generate_batch` returns the empty path list instead of
raising a `FatalBatchError` (lines 529-537 return `output_paths`
unconditionally, and no such exception exists in the code). -/
theorem zero_outputs_returns_empty_not_fatal :
    generate_batch c9load ["a.mp4", "b.mp4"] 1 [] (fun _ => 0) (fun _ => c2Draws)
      (fun _ => false) 1 false false = some (Except.ok [])
    ∧ generate_batch c9load ["a.mp4", "b.mp4"] 1 [] (fun _ => 0) (fun _ => c2Draws)
      (fun _ => false) 1 false false ≠ some (Except.error BatchErr.fatal) := by
  have hload : loadClips c9load ["a.mp4", "b.mp4"] = [12, 100] := rfl
  have hpo : planOutput ⟨[12, 100], [], fun _ => 0, c2Draws⟩ [] 1 = some (c2s8, false) :=
    c2_planOutput
  have hrun : generate_batch c9load ["a.mp4", "b.mp4"] 1 [] (fun _ => 0)
      (fun _ => c2Draws) (fun _ => false) 1 false false = some (Except.ok []) := by
    simp only [generate_batch, hload]
    norm_num [List.range_succ]
    simp only [runOutputs]
    rw [hpo]
    norm_num [c2s8, runOutputs]
  exact ⟨hrun, by rw [hrun]; simp⟩

/-- Witness for the amended C9 theorem, at the empty-input run: the error
that propagates is the input `ValueError`, not a `FatalBatchError`. -/
theorem generate_batch_error_classification_witness :
    ((∃ msg, BatchErr.input "No input videos provided" = BatchErr.input msg)
      ∨ BatchErr.input "No input videos provided" = BatchErr.sink)
    ∧ BatchErr.input "No input videos provided" ≠ BatchErr.fatal :=
  generate_batch_error_classification c9load [] 1 [] (fun _ => 0) (fun _ => c2Draws)
    (fun _ => false) 1 false false (BatchErr.input "No input videos provided") rfl

/-- C10 counterexample: a concrete run with a supplied progress callback
that raises — the batch is aborted by the sink's exception at the first
checkpoint (line 64, outside any `try`) and returns no output paths. -/
theorem progress_sink_exception_escapes :
    generate_batch c9load ["a.mp4", "b.mp4"] 1 [] (fun _ => 0) (fun _ => c2Draws)
      (fun _ => false) 1 true true = some (Except.error BatchErr.sink)
    ∧ ¬ ∃ ps, generate_batch c9load ["a.mp4", "b.mp4"] 1 [] (fun _ => 0)
      (fun _ => c2Draws) (fun _ => false) 1 true true = some (Except.ok ps) := by
  constructor
  · rfl
  · rintro ⟨ps, h⟩
    rw [show generate_batch c9load ["a.mp4", "b.mp4"] 1 [] (fun _ => 0)
        (fun _ => c2Draws) (fun _ => false) 1 true true
        = some (Except.error BatchErr.sink) from rfl] at h
    simp at h

/-- Witness for the amended C10 theorem on a concrete raising-sink run. -/
theorem sink_exception_aborts_batch_witness :
    generate_batch c9load ["a.mp4"] 1 [] (fun _ => 0) (fun _ => c2Draws)
      (fun _ => false) 1 true true = some (Except.error BatchErr.sink)
    ∧ process_job (generate_batch c9load ["a.mp4"] 1 [] (fun _ => 0) (fun _ => c2Draws)
        (fun _ => false) 1 true true) = some JobStatus.jobError :=
  sink_exception_aborts_batch c9load ["a.mp4"] 1 [] (fun _ => 0) (fun _ => c2Draws)
    (fun _ => false) 1 (by simp)

/-- Witness for the amended C5 theorem on the concrete `c3Ctx` run. -/
theorem histories_append_only_witness :
    (∀ s ∈ c3s9.plan, (s.2.1, s.2.1 + s.2.2) ∈ histGet c3s9.gHist s.1)
    ∧ (∀ c, histGet ([] : Hist) c <+: histGet c3s9.gHist c)
    ∧ c3s9.lHist = (mainPhase c3Ctx []).lHist
    ∧ (∀ s ∈ (mainPhase c3Ctx []).plan,
        (s.2.1, s.2.1 + s.2.2) ∈ histGet c3s9.lHist s.1)
    ∧ (mainPhase c3Ctx []).plan <+: c3s9.plan :=
  histories_append_only c3Ctx [] 2 c3s9 false c3_planOutput

end Scramble
